import Mathlib

/-!
Verification development for the Hive-like rules engine (`bugs` namespace in the
C++ sources).  Definitions are shallow embeddings of the functions in
`src/cpp/src/hex_math.cpp`, `src/cpp/src/game_logic.cpp`,
`src/cpp/src/game_interface.cpp` and `src/cpp/include/zobrist.hpp`.
Machine integers are modelled by `Int`/`Nat` (with explicit `% 2 ^ 64` where
64-bit wraparound matters), `std::optional` by `Option`, C++ exceptions by an
explicit result type carrying the state left behind by the throw, and the
unordered containers by association lists (their iteration order is
unspecified in C++; every verdict proved here is shown or argued to be
independent of that order).
-/

namespace Bugs

/-- Axial hex coordinate `(q, r)`; embeds `using Hex = std::pair<int,int>`. -/
abbrev Hex := ℤ × ℤ

/-- The six axial unit directions, in the order of `HEX_DIRECTIONS`. -/
def hexDirections : List Hex := [(1, 0), (1, -1), (0, -1), (-1, 0), (-1, 1), (0, 1)]

/-- Embeds `add_hex`. -/
def addHex (a b : Hex) : Hex := (a.1 + b.1, a.2 + b.2)

/-- Embeds `subtract_hex`. -/
def subtractHex (a b : Hex) : Hex := (a.1 - b.1, a.2 - b.2)

/-- Embeds `get_neighbors`: the six direction offsets added to the cell. -/
def getNeighbors (h : Hex) : List Hex := hexDirections.map (addHex h)

/-- Embeds `hex_distance` (axial distance over `subtract_hex a b`; the numerator
is always even, so C++ truncating division agrees with mathematical division). -/
def hexDistance (a b : Hex) : ℤ :=
  (|a.1 - b.1| + |a.1 - b.1 + (a.2 - b.2)| + |a.2 - b.2|) / 2

/-- Embeds `are_neighbors`. -/
def areNeighbors (a b : Hex) : Bool := hexDistance a b == 1

/-- Embeds `get_common_neighbors`: b's neighbors that are also a's neighbors,
in the iteration order of b's neighbor list. -/
def getCommonNeighbors (a b : Hex) : List Hex :=
  (getNeighbors b).filter (fun n => decide (n ∈ getNeighbors a))

/-- One saturation step of the reachability computation performed by the BFS in
`is_connected`: add every member of `s` adjacent to something already visited. -/
def bfsStep (s : List Hex) (acc : List Hex) : List Hex :=
  acc ++ s.filter (fun h => !(decide (h ∈ acc)) && acc.any (fun a => areNeighbors a h))

/-- Iterate `bfsStep` a fixed number of times. -/
def bfsIter (s : List Hex) : Nat → List Hex → List Hex
  | 0, acc => acc
  | n + 1, acc => bfsIter s n (bfsStep s acc)

/-- Embeds `is_connected`: breadth-first reachability from a member of the set,
true iff every member is visited.  The C++ BFS starts from an arbitrary member
of the unordered set and computes exactly the set of members reachable from it;
we start from the head of the list and iterate the frontier expansion `length`
times, which (proved below) computes the same reachable set.  The verdict is
independent of the chosen start, as both directions of
`isConnected_cons_iff` show. -/
def isConnected (s : List Hex) : Bool :=
  match s with
  | [] => true
  | x :: _ => s.all (fun h => decide (h ∈ bfsIter s s.length [x]))

/-- Adjacency as a proposition. -/
def Adj (a b : Hex) : Prop := areNeighbors a b = true

/-- Reachability from `x` through cells of `s` (every step lands in `s`). -/
def ReachIn (s : List Hex) (x y : Hex) : Prop :=
  Relation.ReflTransGen (fun u v => v ∈ s ∧ Adj u v) x y

/-- A visited set closed under one adjacency step into `s`. -/
def BfsClosed (s acc : List Hex) : Prop := ∀ a ∈ acc, ∀ h ∈ s, Adj a h → h ∈ acc

/-- Count of members of `s` not yet visited. -/
def bfsMissing (s acc : List Hex) : Nat :=
  (s.filter (fun h => !(decide (h ∈ acc)))).length

/-- Piece kinds.  The first five constructors are the checked-in `models.hpp`
enum; the last three are modelled from the spec (§3: "type (one of 5–8
variants depending on mode)", §4.3 advanced pieces), since `game_logic.cpp`
uses `PieceType::LADYBUG/MOSQUITO/PILLBUG` but the checked-in header is a
stale 5-variant version. -/
inductive PieceType where
  | QUEEN
  | ANT
  | SPIDER
  | BEETLE
  | GRASSHOPPER
  | LADYBUG
  | MOSQUITO
  | PILLBUG
deriving DecidableEq, Repr

/-- Embeds `PlayerColor`. -/
inductive PlayerColor where
  | WHITE
  | BLACK
deriving DecidableEq, Repr

/-- Embeds `GameStatus`. -/
inductive GameStatus where
  | IN_PROGRESS
  | FINISHED
deriving DecidableEq, Repr

/-- Action kinds.  `PLACE`/`MOVE` are the checked-in enum; `SPECIAL` is
modelled from the spec (§3 Action kind set), being used throughout
`game_logic.cpp` but missing from the stale checked-in `models.hpp`. -/
inductive ActionType where
  | PLACE
  | MOVE
  | SPECIAL
deriving DecidableEq, Repr

/-- Embeds `to_string(PieceType)` (the three advanced names modelled from the
spec's serialized-state shape, §6: enums transmitted as their string names). -/
def pieceTypeName : PieceType → String
  | .QUEEN => "QUEEN"
  | .ANT => "ANT"
  | .SPIDER => "SPIDER"
  | .BEETLE => "BEETLE"
  | .GRASSHOPPER => "GRASSHOPPER"
  | .LADYBUG => "LADYBUG"
  | .MOSQUITO => "MOSQUITO"
  | .PILLBUG => "PILLBUG"

/-- Embeds `struct Piece`. -/
structure Piece where
  type : PieceType
  color : PlayerColor
  id : String
deriving DecidableEq, Repr

/-- Embeds `struct MoveRequest`. -/
structure MoveRequest where
  action : ActionType
  piece_type : Option PieceType := none
  from_hex : Option Hex := none
  to_hex : Hex
deriving DecidableEq, Repr

/-- Embeds `struct MoveLog` (the `notation` field is never written by
`process_move` and stays at its default, so it is omitted). -/
structure MoveLog where
  move : MoveRequest
  player : PlayerColor
  turn_number : Int
deriving DecidableEq, Repr

/-- The board: an association list from coordinates to piece stacks (bottom to
top), embedding `std::unordered_map<Hex, std::vector<Piece>, HexHash>`.  Keys
are unique (see `GoodBoard`); iteration order of the C++ container is
unspecified, and no verdict proved here depends on the list order. -/
abbrev Board := List (Hex × List Piece)

/-- A hand: association list from piece type to remaining count, embedding
`std::unordered_map<PieceType, int>`. -/
abbrev Hand := List (PieceType × Int)

/-- Embeds `struct Game`.  `advanced_mode`, `last_moved_to` and
`pillbug_frozen_hex` are modelled from the spec (§3 GameRecord: optional
"last moved to" coordinate, optional "frozen" coordinate), being read and
written by `game_logic.cpp` but absent from the stale checked-in header. -/
structure Game where
  game_id : String
  board : Board
  current_turn : PlayerColor
  turn_number : Int
  white_pieces_hand : Hand
  black_pieces_hand : Hand
  winner : Option PlayerColor
  status : GameStatus
  history : List MoveLog
  advanced_mode : Bool
  last_moved_to : Option Hex
  pillbug_frozen_hex : Option Hex
deriving DecidableEq, Repr

/-- Map lookup (`board.count` / `board.at`). -/
def boardGet : Board → Hex → Option (List Piece)
  | [], _ => none
  | (k, s) :: rest, h => if k = h then some s else boardGet rest h

/-- Map write (`board[h] = s`): update in place, or append a fresh key. -/
def boardSet : Board → Hex → List Piece → Board
  | [], h, s => [(h, s)]
  | (k, t) :: rest, h, s => if k = h then (h, s) :: rest else (k, t) :: boardSet rest h s

/-- Map erase (`board.erase(h)`). -/
def boardErase : Board → Hex → Board
  | [], _ => []
  | (k, s) :: rest, h => if k = h then rest else (k, s) :: boardErase rest h

/-- The key list of the board map. -/
def boardKeys (b : Board) : List Hex := b.map Prod.fst

/-- Embeds `get_occupied_hexes`: keys whose stack is nonempty. -/
def occupiedList (b : Board) : List Hex :=
  (b.filter (fun e => !e.2.isEmpty)).map Prod.fst

/-- Embeds the C++ idiom `board.count(h) && !board.at(h).empty()`. -/
def boardOccupiedAt (b : Board) (h : Hex) : Bool :=
  match boardGet b h with
  | none => false
  | some s => !s.isEmpty

/-- Top piece of the stack at `h` (`board.at(h).back()`), if any. -/
def boardTop (b : Board) (h : Hex) : Option Piece :=
  match boardGet b h with
  | none => none
  | some s => s.getLast?

/-- Well-formedness maintained by the engine: unique keys and no stored empty
stacks (the C++ code erases a key as soon as its stack empties and never
stores an empty stack). -/
def GoodBoard (b : Board) : Prop :=
  (boardKeys b).Nodup ∧ ∀ e ∈ b, e.2 ≠ []

/-- Hand lookup (`hand.at` / `hand.find`). -/
def handAt : Hand → PieceType → Option Int
  | [], _ => none
  | (k, v) :: rest, pt => if k = pt then some v else handAt rest pt

/-- Embeds C++ `hand[pt]` on a non-const map: returns the stored value and the
map after the access, which default-inserts a `0` entry when the key is
absent. -/
def handGetOrInsert (h : Hand) (pt : PieceType) : Int × Hand :=
  match handAt h pt with
  | some v => (v, h)
  | none => (0, h ++ [(pt, 0)])

/-- Map write for hands (`hand[pt] = v` with the key present, else append). -/
def handSet : Hand → PieceType → Int → Hand
  | [], pt, v => [(pt, v)]
  | (k, w) :: rest, pt, v => if k = pt then (pt, v) :: rest else (k, w) :: handSet rest pt v

/-- Embeds `create_initial_hand` (models.cpp), in source order. -/
def createInitialHand : Hand :=
  [(.QUEEN, 1), (.ANT, 3), (.GRASSHOPPER, 3), (.SPIDER, 2), (.BEETLE, 2)]

/-- Modelled from the spec: `create_advanced_hand` is called by
`GameEngine::create_game` but its definition is not in the checked-in sources;
per §4.4 "advanced mode adds Ladybug/Mosquito/Pillbug to hands" (one copy of
each, the standard Hive expansion complement). -/
def createAdvancedHand : Hand :=
  createInitialHand ++ [(.LADYBUG, 1), (.MOSQUITO, 1), (.PILLBUG, 1)]

/-- Embeds `GameEngine::create_game`; the random UUID is passed in as `gid`. -/
def createGame (gid : String) (advancedMode : Bool) : Game :=
  { game_id := gid
    board := []
    current_turn := .WHITE
    turn_number := 1
    white_pieces_hand := if advancedMode then createAdvancedHand else createInitialHand
    black_pieces_hand := if advancedMode then createAdvancedHand else createInitialHand
    winner := none
    status := .IN_PROGRESS
    history := []
    advanced_mode := advancedMode
    last_moved_to := none
    pillbug_frozen_hex := none }

/-- Hand of the player to move. -/
def currentHand (g : Game) : Hand :=
  if g.current_turn = .WHITE then g.white_pieces_hand else g.black_pieces_hand

/-- Replace the hand of the player to move. -/
def setCurrentHand (g : Game) (h : Hand) : Game :=
  if g.current_turn = .WHITE then { g with white_pieces_hand := h }
  else { g with black_pieces_hand := h }

/-- Result of a state-mutating engine call: `ok` carries the updated record,
`err` carries the thrown message together with the record as the C++ exception
leaves it (the engine mutates the stored record in place, so an exception
thrown after a write leaves that write behind). -/
inductive MoveResult where
  | ok (g : Game)
  | err (g : Game) (msg : String)
deriving DecidableEq, Repr

/-- Whether a result is a success. -/
def MoveResult.isOk : MoveResult → Bool
  | .ok _ => true
  | .err _ _ => false

/-- Embeds `GameEngine::can_slide`: blocked if both common neighbors are
occupied, and blocked if neither is. -/
def canSlide (a b : Hex) (occ : List Hex) : Bool :=
  let c := ((getCommonNeighbors a b).filter (fun n => decide (n ∈ occ))).length
  if c ≥ 2 then false else if c = 0 then false else true

/-- Embeds `GameEngine::can_climb`: blocked only if both common neighbors are
occupied. -/
def canClimb (a b : Hex) (occ : List Hex) : Bool :=
  ((getCommonNeighbors a b).filter (fun n => decide (n ∈ occ))).length < 2

/-- The hive-contact test used inline by the generators: some neighbor of `n`
is occupied. -/
def hasContact (n : Hex) (occ : List Hex) : Bool :=
  (getNeighbors n).any (fun nb => decide (nb ∈ occ))

/-- Embeds `validate_queen_move`. -/
def validateQueenMove (start dst : Hex) (occ : List Hex) : Bool :=
  areNeighbors start dst && !(decide (dst ∈ occ)) && canSlide start dst occ

/-- Embeds `validate_beetle_move`: the active implementation accepts any
adjacent destination (the gate-checking variant is commented out in the
source). -/
def validateBeetleMove (start dst : Hex) : Bool :=
  areNeighbors start dst

/-- Embeds the step-direction selection of `validate_grasshopper_move`. -/
def ghStepDir (dq dr : ℤ) : Option Hex :=
  if dq = 0 then some (0, if dr > 0 then 1 else -1)
  else if dr = 0 then some ((if dq > 0 then 1 else -1 : ℤ), 0)
  else if dq = -dr then some ((if dq > 0 then 1 else -1 : ℤ), if dr > 0 then 1 else -1)
  else none

/-- The `while (occupied.count(current)) current += step` walk, fueled; the
stepped cells lie on a ray so they are distinct members of `occ`, hence fuel
`occ.length + 1` always suffices to leave the loop. -/
def ghWalk (occ : List Hex) (step : Hex) : Nat → Hex → Option Hex
  | 0, _ => none
  | n + 1, curr =>
    if decide (curr ∈ occ) then ghWalk occ step n (addHex curr step) else some curr

/-- Embeds `validate_grasshopper_move`. -/
def validateGrasshopperMove (start dst : Hex) (occ : List Hex) : Bool :=
  let dq := dst.1 - start.1
  let dr := dst.2 - start.2
  if dq = 0 ∧ dr = 0 then false
  else
    match ghStepDir dq dr with
    | none => false
    | some step =>
      let first := addHex start step
      if !(decide (first ∈ occ)) then false
      else ghWalk occ step (occ.length + 1) first == some dst

/-- Embeds `gen_queen_moves`.  The C++ generators return unordered sets; they
are embedded as lists read up to membership (the final conversion to a vector
has unspecified order in C++). -/
def genQueenMoves (start : Hex) (occ : List Hex) : List Hex :=
  (getNeighbors start).filter (fun n =>
    !(decide (n ∈ occ)) && canSlide start n occ && hasContact n occ)

/-- Embeds `gen_beetle_moves`: gate check only when sliding at ground level
into an empty cell; hive contact required only for empty destinations. -/
def genBeetleMoves (g : Game) (start : Hex) (occ : List Hex) : List Hex :=
  let startZ := ((boardGet g.board start).getD []).length
  (getNeighbors start).filter (fun n =>
    let isDestEmpty := !(decide (n ∈ occ))
    (!(decide (startZ = 1) && isDestEmpty) || canSlide start n occ) &&
    (!isDestEmpty || hasContact n occ))

/-- Embeds `gen_grasshopper_moves`. -/
def genGrasshopperMoves (start : Hex) (occ : List Hex) : List Hex :=
  hexDirections.filterMap (fun d =>
    let c := addHex start d
    if decide (c ∈ occ) then ghWalk occ d (occ.length + 1) c else none)

/-- One expansion frontier of the spider path search. -/
def spiderNexts (occ : List Hex) (curr : Hex) (visited : List Hex) : List Hex :=
  (getNeighbors curr).filter (fun n =>
    !(decide (n ∈ occ)) && !(decide (n ∈ visited)) && canSlide curr n occ && hasContact n occ)

/-- Embeds the recursive 3-step search shared by `gen_spider_moves` and
`validate_spider_move` (per-path visited set, exact step count). -/
def spiderSearch (occ : List Hex) : Nat → Hex → List Hex → List Hex
  | 0, curr, _ => [curr]
  | n + 1, curr, visited =>
    (spiderNexts occ curr visited).foldr
      (fun nb acc => acc ++ spiderSearch occ n nb (visited ++ [nb])) []

/-- Embeds `gen_spider_moves`. -/
def genSpiderMoves (start : Hex) (occ : List Hex) : List Hex :=
  spiderSearch occ 3 start [start]

/-- Embeds `validate_spider_move` (which erases the start cell from the
occupied set itself, then runs the same 3-step search and asks whether `dst`
is an endpoint). -/
def validateSpiderMove (start dst : Hex) (occ : List Hex) : Bool :=
  decide (dst ∈ spiderSearch (occ.erase start) 3 start [start])

/-- Universe of cells the ant BFS can ever visit: the start plus every
neighbor of an occupied cell (every visited cell other than the start must
have hive contact). -/
def antUniverse (start : Hex) (occ : List Hex) : List Hex :=
  start :: occ.flatMap getNeighbors

/-- One frontier expansion of the ant reachability BFS. -/
def antStep (occ univ : List Hex) (acc : List Hex) : List Hex :=
  acc ++ univ.filter (fun n =>
    !(decide (n ∈ acc)) && !(decide (n ∈ occ)) &&
    acc.any (fun c => decide (n ∈ getNeighbors c) && canSlide c n occ && hasContact n occ))

/-- Iterated ant frontier expansion. -/
def antIter (occ univ : List Hex) : Nat → List Hex → List Hex
  | 0, acc => acc
  | n + 1, acc => antIter occ univ n (antStep occ univ acc)

/-- The visited set of the queue BFS in `gen_ant_moves`/`validate_ant_move`:
all cells reachable from `start` by gated, contact-keeping slides through
empty cells.  The C++ queue BFS computes exactly this closure; iterating the
frontier expansion `univ.length` times saturates it. -/
def antReach (start : Hex) (occ : List Hex) : List Hex :=
  antIter occ (antUniverse start occ) (antUniverse start occ).length [start]

/-- Embeds `gen_ant_moves`: every visited cell except the start. -/
def genAntMoves (start : Hex) (occ : List Hex) : List Hex :=
  (antReach start occ).filter (fun n => !(decide (n = start)))

/-- Embeds `validate_ant_move`. -/
def validateAntMove (start dst : Hex) (occ : List Hex) : Bool :=
  if start = dst then false
  else if decide (dst ∈ occ) then false
  else decide (dst ∈ antReach start (occ.erase start))

/-- Embeds `gen_ladybug_moves`: two climbs over occupied cells, then a drop to
an empty contact-keeping cell, never returning to the start. -/
def genLadybugMoves (start : Hex) (occ : List Hex) : List Hex :=
  ((getNeighbors start).filter (fun s1 => decide (s1 ∈ occ))).flatMap (fun s1 =>
    ((getNeighbors s1).filter (fun s2 =>
        !(decide (s2 = start)) && decide (s2 ∈ occ))).flatMap (fun s2 =>
      (getNeighbors s2).filter (fun s3 =>
        !(decide (s3 = start)) && !(decide (s3 ∈ occ)) && hasContact s3 occ)))

/-- Embeds `gen_pillbug_moves` (identical to the queen's). -/
def genPillbugMoves (start : Hex) (occ : List Hex) : List Hex :=
  genQueenMoves start occ

/-- Top piece types of the occupied neighbors of `start`. -/
def neighborTopTypes (g : Game) (start : Hex) : List PieceType :=
  (getNeighbors start).filterMap (fun n => (boardTop g.board n).map (fun p => p.type))

/-- Dispatch of `gen_mosquito_moves`' switch over a copied piece type (the
`MOSQUITO` case is skipped by the caller; the switch has no other default). -/
def genMovesForType (g : Game) (pt : PieceType) (start : Hex) (occ : List Hex) : List Hex :=
  match pt with
  | .QUEEN => genQueenMoves start occ
  | .BEETLE => genBeetleMoves g start occ
  | .GRASSHOPPER => genGrasshopperMoves start occ
  | .SPIDER => genSpiderMoves start occ
  | .ANT => genAntMoves start occ
  | .LADYBUG => genLadybugMoves start occ
  | .PILLBUG => genPillbugMoves start occ
  | .MOSQUITO => []

/-- Embeds `gen_mosquito_moves` (neighbor types collected as a deduplicated
list, mirroring the C++ `unordered_set<PieceType>`). -/
def genMosquitoMoves (g : Game) (start : Hex) (occ : List Hex) : List Hex :=
  let stackHeight := ((boardGet g.board start).getD []).length
  if stackHeight > 1 then genBeetleMoves g start occ
  else
    let ntypes : List PieceType := (neighborTopTypes g start).dedup
    if ntypes.length = 1 ∧ PieceType.MOSQUITO ∈ ntypes then []
    else
      let ntypes2 := if (getNeighbors start).any
          (fun n => decide (((boardGet g.board n).getD []).length > 1))
        then (if PieceType.BEETLE ∈ ntypes then ntypes else ntypes ++ [PieceType.BEETLE])
        else ntypes
      ntypes2.flatMap (fun pt =>
        if pt = PieceType.MOSQUITO then [] else genMovesForType g pt start occ)

/-- Embeds `validate_ladybug_move` (membership in the generator's output). -/
def validateLadybugMove (start dst : Hex) (occ : List Hex) : Bool :=
  decide (dst ∈ genLadybugMoves start occ)

/-- Embeds `validate_mosquito_move` (membership in the generator's output). -/
def validateMosquitoMove (g : Game) (start dst : Hex) (occ : List Hex) : Bool :=
  decide (dst ∈ genMosquitoMoves g start occ)

/-- Embeds `validate_pillbug_move` (queen-like single gated step). -/
def validatePillbugMove (start dst : Hex) (occ : List Hex) : Bool :=
  validateQueenMove start dst occ

/-- The mosquito-touches-a-pillbug test of `execute_special` and
`get_valid_moves_for_piece`. -/
def isMosquitoTouchingPillbug (g : Game) (n : Hex) : Bool :=
  (getNeighbors n).any (fun mn =>
    match boardTop g.board mn with
    | none => false
    | some t => decide (t.type = PieceType.PILLBUG))

/-- Condition under which the loop body of `execute_special` accepts neighbor
`n` of the thrown cell as the throwing pillbug. -/
def specialThrowCond (g : Game) (fromHex toHex : Hex) (occ : List Hex) (n : Hex) : Bool :=
  match boardTop g.board n with
  | none => false
  | some top =>
    decide (top.color = g.current_turn) &&
    decide (n ∈ getNeighbors toHex) &&
    ((decide (top.type = PieceType.PILLBUG) &&
        decide (((boardGet g.board n).getD []).length = 1)) ||
      (decide (top.type = PieceType.MOSQUITO) &&
        decide (((boardGet g.board n).getD []).length = 1) &&
        isMosquitoTouchingPillbug g n)) &&
    !(decide (g.pillbug_frozen_hex = some n)) &&
    canClimb fromHex n occ &&
    canClimb n toHex (occ.erase fromHex)

/-- The `for` loop of `execute_special`: first neighbor of the thrown cell
that passes every check. -/
def findPillbugThrower (g : Game) (fromHex toHex : Hex) (occ : List Hex) : Option Hex :=
  (getNeighbors fromHex).find? (specialThrowCond g fromHex toHex occ)

/-- Embeds `gen_pillbug_special_moves`: the (thrown piece, destination) pairs
a pillbug standing at `pb` can produce. -/
def genPillbugSpecialMoves (g : Game) (pb : Hex) (occ : List Hex) : List (Hex × Hex) :=
  if ((boardGet g.board pb).getD []).length > 1 then []
  else if g.pillbug_frozen_hex = some pb then []
  else
    let emptyNeighbors := (getNeighbors pb).filter (fun n => !(decide (n ∈ occ)))
    if emptyNeighbors.isEmpty then []
    else
      (getNeighbors pb).flatMap (fun adj =>
        if !(boardOccupiedAt g.board adj) then []
        else if ((boardGet g.board adj).getD []).length > 1 then []
        else if g.last_moved_to = some adj then []
        else if g.pillbug_frozen_hex = some adj then []
        else if !(isConnected (occ.erase adj)) then []
        else if !(canClimb adj pb occ) then []
        else emptyNeighbors.filterMap (fun dest =>
          if dest = adj then none
          else if canClimb pb dest (occ.erase adj) then some (adj, dest) else none))

/-- Set insertion on the occupied list (`unordered_set::insert`). -/
def insertHex (l : List Hex) (h : Hex) : List Hex :=
  if h ∈ l then l else l ++ [h]

/-- Embeds `GameEngine::validate_turn` (read-only; `hand.at` on a missing key
throws `std::out_of_range`, modelled by the "out_of_range" message). -/
def validateTurn (g : Game) (m : MoveRequest) : Option String :=
  let hand := currentHand g
  match m.action with
  | .MOVE =>
    match handAt hand .QUEEN with
    | none => some "out_of_range"
    | some v => if v = 1 then some "Must place Queen Bee before moving pieces" else none
  | .PLACE =>
    let isFourthTurn := (g.current_turn = .WHITE ∧ g.turn_number = 7) ∨
      (g.current_turn = .BLACK ∧ g.turn_number = 8)
    if isFourthTurn then
      match handAt hand .QUEEN with
      | none => some "out_of_range"
      | some v =>
        if v = 1 ∧ m.piece_type.getD .QUEEN ≠ .QUEEN then
          some "Rules require placing Queen Bee by the 4th turn"
        else none
    else none
  | .SPECIAL => none

/-- Embeds the history-log construction at the top of `process_move`
(filling in a missing piece type for a MOVE from the origin's top piece). -/
def mkLog (g : Game) (m : MoveRequest) : MoveLog :=
  let mv :=
    if m.action = .MOVE ∧ m.piece_type = none then
      match m.from_hex with
      | some f =>
        match boardTop g.board f with
        | some p => { m with piece_type := some p.type }
        | none => m
      | none => m
    else m
  { move := mv, player := g.current_turn, turn_number := g.turn_number }

/-- Embeds `GameEngine::execute_place`.  The `hand[pt]` access default-inserts
a zero entry when the key is absent, and that insertion survives the
subsequent throw — the error state carries it. -/
def executePlace (g : Game) (m : MoveRequest) (newId : String) : MoveResult :=
  match m.piece_type with
  | none => .err g "Piece type required for placement"
  | some pt =>
    let hand := currentHand g
    let vh := handGetOrInsert hand pt
    let g1 := setCurrentHand g vh.2
    if vh.1 ≤ 0 then .err g1 ("No " ++ pieceTypeName pt ++ " remaining in hand")
    else if boardOccupiedAt g1.board m.to_hex then .err g1 "Cannot place on occupied tile"
    else
      let newPiece : Piece := { type := pt, color := g1.current_turn, id := newId }
      let placed := setCurrentHand
        { g1 with board := boardSet g1.board m.to_hex [newPiece] }
        (handSet vh.2 pt (vh.1 - 1))
      if g1.board = [] then .ok placed
      else if g1.turn_number = 2 then
        if (getNeighbors m.to_hex).any (fun n => (boardGet g1.board n).isSome) then .ok placed
        else .err g1 "Must place next to existing hive"
      else
        let touchingOwn := (getNeighbors m.to_hex).any (fun n =>
          match boardTop g1.board n with
          | some p => decide (p.color = g1.current_turn)
          | none => false)
        let touchingOpponent := (getNeighbors m.to_hex).any (fun n =>
          match boardTop g1.board n with
          | some p => !(decide (p.color = g1.current_turn))
          | none => false)
        if !touchingOwn then .err g1 "New placements must touch your own color"
        else if touchingOpponent then .err g1 "New placements cannot touch opponent pieces"
        else .ok placed

/-- The board mutation at the end of `execute_move`: pop the moved piece off
its stack (erasing the key if the stack empties), then push it onto the
destination stack (creating the key if absent). -/
def moveMutatedBoard (b : Board) (f t : Hex) (s : List Piece) (piece : Piece) : Board :=
  let b1 := if s.dropLast = [] then boardErase b f else boardSet b f s.dropLast
  boardSet b1 t (((boardGet b1 t).getD []) ++ [piece])

/-- Embeds `GameEngine::execute_move`: origin/ownership checks, the two One
Hive checks (on the set with the piece virtually lifted, then with it landed),
piece-specific validation, then the board mutation. -/
def executeMove (g : Game) (m : MoveRequest) : MoveResult :=
  match m.from_hex with
  | none => .err g "Origin required for move"
  | some f =>
    let s := (boardGet g.board f).getD []
    match s.getLast? with
    | none => .err g "No piece at origin"
    | some piece =>
      if piece.color ≠ g.current_turn then .err g "Cannot move opponent's piece"
      else
        let occ := occupiedList g.board
        let future1 := if s.length = 1 then occ.erase f else occ
        if !(isConnected future1) then
          .err g "Move violates One Hive Rule (disconnects hive)"
        else
          let future2 := insertHex future1 m.to_hex
          if !(isConnected future2) then
            .err g "Move violates One Hive Rule (destination disconnected)"
          else if f = m.to_hex then .err g "Cannot move to same position"
          else
            let valid :=
              match piece.type with
              | .QUEEN => validateQueenMove f m.to_hex occ
              | .BEETLE => validateBeetleMove f m.to_hex
              | .GRASSHOPPER => validateGrasshopperMove f m.to_hex occ
              | .SPIDER => validateSpiderMove f m.to_hex occ
              | .ANT => validateAntMove f m.to_hex occ
              | .LADYBUG => validateLadybugMove f m.to_hex occ
              | .MOSQUITO => validateMosquitoMove g f m.to_hex occ
              | .PILLBUG => validatePillbugMove f m.to_hex occ
            if !valid then .err g ("Invalid move for " ++ pieceTypeName piece.type)
            else .ok { g with board := moveMutatedBoard g.board f m.to_hex s piece }

/-- Embeds `GameEngine::execute_special` (the pillbug throw). -/
def executeSpecial (g : Game) (m : MoveRequest) : MoveResult :=
  match m.from_hex with
  | none => .err g "Origin required for special move"
  | some f =>
    match (boardGet g.board f).getD [] with
    | [] => .err g "No piece at origin for special move"
    | thrown :: rest =>
      if rest ≠ [] then .err g "Cannot throw a stacked piece"
      else if g.last_moved_to = some f then
        .err g "Cannot throw the piece that was just moved"
      else if g.pillbug_frozen_hex = some f then
        .err g "That piece is frozen by pillbug"
      else if boardOccupiedAt g.board m.to_hex then
        .err g "Destination must be empty for special move"
      else
        let occ := occupiedList g.board
        if !(isConnected (occ.erase f)) then
          .err g "Special move violates One Hive Rule"
        else
          match findPillbugThrower g f m.to_hex occ with
          | none => .err g "No valid pillbug path (gate blocked or no pillbug)"
          | some _ =>
            .ok { g with
              board := boardSet (boardErase g.board f) m.to_hex [thrown]
              pillbug_frozen_hex := some m.to_hex }

/-- Whether some queen of `color` on the board has all six neighbor keys
present; this is the flag the loop in `check_win_condition` accumulates over
every queen of that color (the iteration order of the loop does not affect the
accumulated flag). -/
def queenSurrounded (b : Board) (color : PlayerColor) : Bool :=
  b.any (fun e =>
    e.2.any (fun p =>
      decide (p.type = PieceType.QUEEN) && decide (p.color = color) &&
      decide (((getNeighbors e.1).filter (fun n => (boardGet b n).isSome)).length = 6)))

/-- Embeds `GameEngine::check_win_condition`. -/
def checkWinCondition (g : Game) : Game :=
  let ws := queenSurrounded g.board .WHITE
  let bs := queenSurrounded g.board .BLACK
  if ws && bs then { g with status := .FINISHED, winner := none }
  else if ws then { g with status := .FINISHED, winner := some .BLACK }
  else if bs then { g with status := .FINISHED, winner := some .WHITE }
  else g

/-- Dispatch of `process_move` to the per-action executor. -/
def execDispatch (g : Game) (m : MoveRequest) (newId : String) : MoveResult :=
  match m.action with
  | .PLACE => executePlace g m newId
  | .SPECIAL => executeSpecial g m
  | .MOVE => executeMove g m

/-- The tail of `process_move` after a successful execution: append the log
entry, re-evaluate the win condition, update `last_moved_to`, switch the turn
and bump the turn number. -/
def processMovePost (m : MoveRequest) (log : MoveLog) (g1 : Game) : Game :=
  let g2 := { g1 with history := g1.history ++ [log] }
  let g3 := checkWinCondition g2
  let g4 := { g3 with
    last_moved_to := if m.action = ActionType.MOVE then some m.to_hex else none }
  { g4 with
    current_turn := if g4.current_turn = PlayerColor.WHITE then PlayerColor.BLACK
      else PlayerColor.WHITE
    turn_number := g4.turn_number + 1 }

/-- Embeds the body of `GameEngine::process_move` on the looked-up record
(identical to `process_move_inplace`); the UUID generated for a placed piece
is passed in as `newId`. -/
def processMove (g : Game) (m : MoveRequest) (newId : String) : MoveResult :=
  if g.status = .FINISHED then .err g "Game is finished"
  else
    match validateTurn g m with
    | some e => .err g e
    | none =>
      match execDispatch g m newId with
      | .err g1 msg => .err g1 msg
      | .ok g1 => .ok (processMovePost m (mkLog g m) g1)

/-- Fold a list of accepted actions over `processMove` (each item carries the
UUID used if the action is a placement); `none` as soon as one is rejected. -/
def applyMoves (g : Game) : List (MoveRequest × String) → Option Game
  | [] => some g
  | (m, nid) :: rest =>
    match processMove g m nid with
    | .ok g2 => applyMoves g2 rest
    | .err _ _ => none

/-- Embeds `GameEngine::get_valid_moves_for_piece` (the 4-argument version in
`game_logic.cpp`, whose last flag asks for pillbug interaction targets).  The
C++ collects candidates in an unordered set and returns them as a vector of
unspecified order; the embedding returns the deduplicated candidate list.
A hand lacking a QUEEN entry would make the C++ `hand.at` throw; the engine
never builds such a hand, and the embedding reads the missing entry as
not-equal-to-1. -/
def getValidMovesForPiece (g : Game) (fromHex : Hex) (occ : List Hex)
    (includeInteractionTargets : Bool) : List Hex :=
  match boardTop g.board fromHex with
  | none => []
  | some piece =>
    if piece.color ≠ g.current_turn then []
    else if handAt (currentHand g) .QUEEN = some 1 ∧ piece.type ≠ .QUEEN then []
    else
      let stackHeight := ((boardGet g.board fromHex).getD []).length
      let occAfterLift := if stackHeight = 1 then occ.erase fromHex else occ
      let pinned := !(isConnected occAfterLift)
      let frozen := g.pillbug_frozen_hex = some fromHex
      let candidates : List Hex :=
        if pinned = false ∧ ¬frozen then
          match piece.type with
          | .QUEEN => genQueenMoves fromHex occAfterLift
          | .BEETLE => genBeetleMoves g fromHex occAfterLift
          | .GRASSHOPPER => genGrasshopperMoves fromHex occ
          | .SPIDER => genSpiderMoves fromHex occAfterLift
          | .ANT => genAntMoves fromHex occAfterLift
          | .LADYBUG => genLadybugMoves fromHex occAfterLift
          | .MOSQUITO => genMosquitoMoves g fromHex occAfterLift
          | .PILLBUG => genPillbugMoves fromHex occAfterLift
        else []
      if !includeInteractionTargets then candidates.dedup
      else
        let canActAsPillbug :=
          (piece.type = PieceType.PILLBUG ∧ stackHeight = 1) ∨
          (piece.type = PieceType.MOSQUITO ∧ stackHeight = 1 ∧
            (getNeighbors fromHex).any (fun n =>
              match boardTop g.board n with
              | some t => decide (t.type = PieceType.PILLBUG)
              | none => false))
        let candidates2 :=
          if canActAsPillbug ∧ ¬frozen then
            candidates ++ (genPillbugSpecialMoves g fromHex occ).map Prod.fst
          else candidates
        let candidates3 :=
          if stackHeight = 1 ∧ ¬frozen then
            candidates2 ++ (getNeighbors fromHex).flatMap (fun n =>
              match boardTop g.board n with
              | none => []
              | some nb =>
                if nb.color = g.current_turn ∧
                    (nb.type = PieceType.PILLBUG ∨
                      (nb.type = PieceType.MOSQUITO ∧ isMosquitoTouchingPillbug g n)) ∧
                    ((boardGet g.board n).getD []).length = 1 ∧
                    g.pillbug_frozen_hex ≠ some n then
                  (genPillbugSpecialMoves g n occ).filterMap (fun pr =>
                    if pr.1 = fromHex then some pr.2 else none)
                else [])
          else candidates2
        candidates3.dedup

/-- Lookup in the engine's `games_` map. -/
def lookupGame (games : List (String × Game)) (gid : String) : Option Game :=
  match games with
  | [] => none
  | (k, g) :: rest => if k = gid then some g else lookupGame rest gid

/-- Embeds `GameEngine::get_valid_moves`: empty on an unknown id or a finished
game, else the per-piece legal-move query with interaction targets. -/
def getValidMoves (games : List (String × Game)) (gid : String) (q r : ℤ) : List Hex :=
  match lookupGame games gid with
  | none => []
  | some g =>
    if g.status = GameStatus.FINISHED then []
    else getValidMovesForPiece g (q, r) (occupiedList g.board) true

/-- Embeds `struct Action` (game_interface.hpp). -/
structure Action where
  action_type : ActionType
  piece_type : Option PieceType := none
  from_hex : Option Hex := none
  to_hex : Hex
deriving DecidableEq, Repr

/-- Embeds `GameInterface::get_valid_placement_hexes`.  The C++ candidate sets
are deduplicated lists here (their iteration order is unspecified). -/
def getValidPlacementHexes (g : Game) : List Hex :=
  if g.board = [] then [(0, 0)]
  else if g.turn_number = 2 then
    let occupied := g.board.map Prod.fst
    ((occupied.flatMap getNeighbors).filter (fun n => !(decide (n ∈ occupied)))).dedup
  else
    let occupied : List (Hex × PlayerColor) :=
      g.board.filterMap (fun e => (e.2.getLast?).map (fun p => (e.1, p.color)))
    let occKeys := occupied.map Prod.fst
    let candidates := ((occupied.filter (fun e => decide (e.2 = g.current_turn))).flatMap
      (fun e => (getNeighbors e.1).filter (fun n => !(decide (n ∈ occKeys))))).dedup
    candidates.filter (fun pos =>
      !((getNeighbors pos).any (fun n =>
        occupied.any (fun e => decide (e.1 = n) && !(decide (e.2 = g.current_turn))))))

/-- Embeds `GameInterface::get_all_valid_moves`.  The checked-in body contains
a stale line (`Hex pos = key_to_coord(key)` with no `key` in scope); the loop
variable `pos` is evidently meant.  Modelled from the spec for the engine-call
flag: §4.4 incorporates pillbug-throw interaction targets only "when
requested", and the AI path builds real MOVE actions, so no interaction
targets are requested. -/
def getAllValidMoves (g : Game) : List (Hex × List Hex) :=
  let occ := occupiedList g.board
  g.board.filterMap (fun e =>
    match e.2.getLast? with
    | none => none
    | some top =>
      if top.color ≠ g.current_turn then none
      else
        let dests := getValidMovesForPiece g e.1 occ false
        if dests.isEmpty then none else some (e.1, dests))

/-- Embeds `GameInterface::get_legal_actions`. -/
def getLegalActions (g : Game) : List Action :=
  if g.status = GameStatus.FINISHED then []
  else
    let hand := currentHand g
    let isFourthTurn := (g.current_turn = PlayerColor.WHITE ∧ g.turn_number = 7) ∨
      (g.current_turn = PlayerColor.BLACK ∧ g.turn_number = 8)
    let mustPlaceQueen := isFourthTurn ∧ handAt hand .QUEEN = some 1
    let queenPlaced := handAt hand .QUEEN = some 0
    let placementHexes := getValidPlacementHexes g
    if mustPlaceQueen then
      placementHexes.map (fun h =>
        { action_type := .PLACE, piece_type := some .QUEEN, to_hex := h })
    else
      let placeActions := hand.flatMap (fun e =>
        if e.2 > 0 then
          placementHexes.map (fun h =>
            { action_type := ActionType.PLACE, piece_type := some e.1, to_hex := h })
        else [])
      let moveActions :=
        if queenPlaced then
          (getAllValidMoves g).flatMap (fun pr =>
            pr.2.map (fun dst =>
              { action_type := ActionType.MOVE
                piece_type := (boardTop g.board pr.1).map (fun p => p.type)
                from_hex := some pr.1
                to_hex := dst }))
        else []
      placeActions ++ moveActions


/-- Test fixture: a white beetle at the origin with occupied cells at the two
common neighbors of the origin and `(1, 0)` — a closed gate for a ground-level
slide. -/
def c2GateGame : Game :=
  { game_id := "c2"
    board := [((0, 0), [{ type := .BEETLE, color := .WHITE, id := "b" }]),
      ((1, -1), [{ type := .SPIDER, color := .BLACK, id := "s1" }]),
      ((0, 1), [{ type := .SPIDER, color := .WHITE, id := "s2" }])]
    current_turn := .WHITE
    turn_number := 5
    white_pieces_hand := createInitialHand
    black_pieces_hand := createInitialHand
    winner := none
    status := .IN_PROGRESS
    history := []
    advanced_mode := false
    last_moved_to := none
    pillbug_frozen_hex := none }

/-- Test fixture: a white beetle at the origin next to a single black piece at
`(1, 0)` it can climb onto. -/
def c2ClimbGame : Game :=
  { game_id := "c2w"
    board := [((0, 0), [{ type := .BEETLE, color := .WHITE, id := "b" }]),
      ((1, 0), [{ type := .SPIDER, color := .BLACK, id := "s1" }])]
    current_turn := .WHITE
    turn_number := 5
    white_pieces_hand := createInitialHand
    black_pieces_hand := createInitialHand
    winner := none
    status := .IN_PROGRESS
    history := []
    advanced_mode := false
    last_moved_to := none
    pillbug_frozen_hex := none }


/-- Test fixture: a fresh standard game whose status is set to FINISHED. -/
def finishedGame : Game :=
  { createGame "fin" false with status := GameStatus.FINISHED }


/-- Test fixture (C4): two opening placements in an advanced game — a white
pillbug at the origin, a black spider next to it; white's queen is still in
hand. -/
def c4Moves : List (MoveRequest × String) :=
  [({ action := .PLACE, piece_type := some .PILLBUG, to_hex := (0, 0) }, "w1"),
   ({ action := .PLACE, piece_type := some .SPIDER, to_hex := (1, 0) }, "b1")]

/-- The game after `c4Moves`. -/
def c4Game : Game :=
  (applyMoves (createGame "c4" true) c4Moves).getD (createGame "c4" true)

/-- A pillbug throw of the black spider while white's queen is unplaced. -/
def c4Special : MoveRequest :=
  { action := .SPECIAL, from_hex := some (1, 0), to_hex := (0, 1) }

/-- Test fixture (C5): an advanced game in which white's pillbug at the
origin throws white's own queen from `(0, -1)` to `(1, 0)` on turn 5 (the
thrown queen becomes frozen), after which both players keep placing pieces. -/
def c5Moves : List (MoveRequest × String) :=
  [({ action := .PLACE, piece_type := some .PILLBUG, to_hex := (0, 0) }, "w1"),
   ({ action := .PLACE, piece_type := some .BEETLE, to_hex := (0, 1) }, "b1"),
   ({ action := .PLACE, piece_type := some .QUEEN, to_hex := (0, -1) }, "w2"),
   ({ action := .PLACE, piece_type := some .QUEEN, to_hex := (0, 2) }, "b2"),
   ({ action := .SPECIAL, from_hex := some (0, -1), to_hex := (1, 0) }, "w3"),
   ({ action := .PLACE, piece_type := some .ANT, to_hex := (0, 3) }, "b3"),
   ({ action := .PLACE, piece_type := some .ANT, to_hex := (-1, 0) }, "w4"),
   ({ action := .PLACE, piece_type := some .GRASSHOPPER, to_hex := (0, 4) }, "b4")]

/-- The game after all of `c5Moves` (white to move again, two full turns
after the throw). -/
def c5Game : Game :=
  (applyMoves (createGame "c5" true) c5Moves).getD (createGame "c5" true)

/-- The game right after the throw plus one black reply (white's next turn —
the thrower's next turn — is about to be taken). -/
def c5Game6 : Game :=
  (applyMoves (createGame "c5" true) (c5Moves.take 6)).getD (createGame "c5" true)

/-- An attempted second throw of the once-frozen queen, two full turns after
the original throw. -/
def c5Rethrow : MoveRequest :=
  { action := .SPECIAL, from_hex := some (1, 0), to_hex := (1, -1) }


/-- Enum ordinal of a piece type (`static_cast<int>(type)`). -/
def pieceTypeIdx : PieceType → Nat
  | .QUEEN => 0
  | .ANT => 1
  | .SPIDER => 2
  | .BEETLE => 3
  | .GRASSHOPPER => 4
  | .LADYBUG => 5
  | .MOSQUITO => 6
  | .PILLBUG => 7

/-- Enum ordinal of a color (`static_cast<int>(color)`). -/
def playerColorIdx : PlayerColor → Nat
  | .WHITE => 0
  | .BLACK => 1

/-- Key material of the `ZobristHash` singleton, embedding its accessors.  The
C++ fills the piece keys and the three scalar keys from a `std::mt19937_64`
seeded with `0xDEADBEEF`; every theorem below holds for an arbitrary key
table, so the embedding is parameterized by it (keys are 64-bit values,
i.e. naturals below `2 ^ 64`). -/
structure ZobristKeys where
  pieceKey : PieceType → PlayerColor → Hex → Nat
  turnWhite : Nat
  turnBlack : Nat
  handBase : Nat

/-- Embeds `ZobristHash::get_turn_hash`. -/
def getTurnHash (K : ZobristKeys) : PlayerColor → Nat
  | .WHITE => K.turnWhite
  | .BLACK => K.turnBlack

/-- Embeds `ZobristHash::get_hand_hash`:
`hand_base ^ (type_idx*7919) ^ (color_idx*6997) ^ (count*5501)` with the `int`
product converted to `uint64_t` (reduced mod `2 ^ 64`). -/
def getHandHash (K : ZobristKeys) (t : PieceType) (c : PlayerColor) (count : Int) : Nat :=
  K.handBase ^^^ (pieceTypeIdx t * 7919) ^^^ (playerColorIdx c * 6997) ^^^
    ((count * 5501) % (2 ^ 64)).toNat

/-- The inner loop of `compute_zobrist_hash` over one cell's stack, bottom to
top: XOR in each piece's key and the level salt `(i+1) * 0x9E3779B97F4A7C15`
(the 64-bit product reduced mod `2 ^ 64`). -/
def stackHashAux (K : ZobristKeys) (pos : Hex) : List Piece → Nat → Nat → Nat
  | [], _, h => h
  | p :: rest, i, h =>
    stackHashAux K pos rest (i + 1)
      ((h ^^^ K.pieceKey p.type p.color pos) ^^^ ((i + 1) * 0x9E3779B97F4A7C15 % 2 ^ 64))

/-- Embeds `compute_zobrist_hash` (zobrist.hpp): XOR of every stacked piece's
key with its level salt, the current-turn key, and both hands' composed keys.
XOR is commutative, so the C++ container iteration order does not affect the
result. -/
def computeZobristHash (K : ZobristKeys) (g : Game) : Nat :=
  let h0 := g.board.foldl
    (fun h e => if e.2.isEmpty then h else stackHashAux K e.1 e.2 0 h) 0
  let h1 := h0 ^^^ getTurnHash K g.current_turn
  let h2 := g.white_pieces_hand.foldl
    (fun h e => h ^^^ getHandHash K e.1 .WHITE e.2) h1
  g.black_pieces_hand.foldl (fun h e => h ^^^ getHandHash K e.1 .BLACK e.2) h2

/-- A concrete demonstration Zobrist key table for the C9 counterexample.
The collision below holds for EVERY key table (see the amended theorem); this
fixed one only makes the counterexample a closed computation. -/
def c9Keys : ZobristKeys :=
  { pieceKey := fun t c h =>
      pieceTypeIdx t * 1000003 + playerColorIdx c * 10007 + (h.1 + 137 * h.2).natAbs * 101 + 5
    turnWhite := 11
    turnBlack := 22
    handBase := 33 }

/-- A white beetle, for the C9 two-piece stack. -/
def c9Piece1 : Piece := { type := PieceType.BEETLE, color := PlayerColor.WHITE, id := "wB1" }

/-- A black ant, for the C9 two-piece stack. -/
def c9Piece2 : Piece := { type := PieceType.ANT, color := PlayerColor.BLACK, id := "bA1" }

/-- A game whose single cell stacks the beetle UNDER the ant. -/
def c9GameA : Game := { createGame "c9" false with board := [((0, 0), [c9Piece1, c9Piece2])] }

/-- The same game with the stack in the opposite vertical order. -/
def c9GameB : Game := { createGame "c9" false with board := [((0, 0), [c9Piece2, c9Piece1])] }

/-- XOR of the piece keys of a stack (proof-side summary of the piece-key
contributions of `stackHashAux`; the level salt is accounted separately). -/
def pieceKeysXor (K : ZobristKeys) (pos : Hex) (s : List Piece) : Nat :=
  (s.map fun p => K.pieceKey p.type p.color pos).foldr (fun a b => a ^^^ b) 0

/-- XOR of the level salts of `n` consecutive stack levels starting at
loop index `i` (proof-side summary of the salt contributions of
`stackHashAux`). -/
def saltXor : Nat → Nat → Nat
  | 0, _ => 0
  | n + 1, i => ((i + 1) * 0x9E3779B97F4A7C15 % 2 ^ 64) ^^^ saltXor n (i + 1)

theorem hexDistance_symm (a b : Hex) : hexDistance a b = hexDistance b a := by
  unfold hexDistance
  rw [abs_sub_comm a.1 b.1, abs_sub_comm a.2 b.2,
    show b.1 - a.1 + (b.2 - a.2) = -(a.1 - b.1 + (a.2 - b.2)) by ring, abs_neg]

theorem areNeighbors_symm (a b : Hex) : areNeighbors a b = areNeighbors b a := by
  simp [areNeighbors, hexDistance_symm]

theorem hexDistance_addHex (a d : Hex) : hexDistance a (addHex a d) = hexDistance (0, 0) d := by
  simp only [hexDistance, addHex]
  rw [show a.1 - (a.1 + d.1) = 0 - d.1 from by ring,
    show a.2 - (a.2 + d.2) = 0 - d.2 from by ring]

/-- Membership in the neighbor list is exactly axial distance 1. -/
theorem mem_getNeighbors_iff {a n : Hex} : n ∈ getNeighbors a ↔ hexDistance a n = 1 := by
  constructor
  · intro hmem
    simp only [getNeighbors, List.mem_map] at hmem
    obtain ⟨d, hd, rfl⟩ := hmem
    rw [hexDistance_addHex]
    fin_cases hd <;> decide
  · intro hdist
    simp only [hexDistance] at hdist
    rw [Int.abs_eq_natAbs, Int.abs_eq_natAbs, Int.abs_eq_natAbs] at hdist
    simp only [getNeighbors, hexDirections, List.mem_map]
    refine ⟨(n.1 - a.1, n.2 - a.2), ?_, ?_⟩
    · simp only [List.mem_cons, List.not_mem_nil, or_false, Prod.mk.injEq]
      omega
    · simp only [addHex, Prod.ext_iff]
      omega

theorem adj_of_mem_getNeighbors {a n : Hex} (h : n ∈ getNeighbors a) : Adj a n := by
  simp only [Adj, areNeighbors, beq_iff_eq]
  exact mem_getNeighbors_iff.mp h

theorem adj_symm {a b : Hex} (h : Adj a b) : Adj b a := by
  simpa [Adj, areNeighbors_symm] using h

theorem ne_of_mem_getNeighbors {a n : Hex} (h : n ∈ getNeighbors a) : n ≠ a := by
  intro he
  have := mem_getNeighbors_iff.mp h
  subst he
  simp [hexDistance] at this

theorem mem_bfsStep {s acc : List Hex} {h : Hex} :
    h ∈ bfsStep s acc ↔ h ∈ acc ∨ (h ∈ s ∧ h ∉ acc ∧ ∃ a ∈ acc, Adj a h) := by
  simp [bfsStep, List.mem_filter, List.any_eq_true, Adj, and_assoc]

theorem subset_bfsStep (s acc : List Hex) : acc ⊆ bfsStep s acc := by
  intro a ha
  exact mem_bfsStep.mpr (Or.inl ha)

theorem subset_bfsIter (s : List Hex) : ∀ (n : Nat) (acc : List Hex), acc ⊆ bfsIter s n acc := by
  intro n
  induction n with
  | zero => intro acc a ha; exact ha
  | succ n ih =>
    intro acc a ha
    exact ih (bfsStep s acc) (subset_bfsStep s acc ha)

theorem bfsClosed_of_step_eq {s acc : List Hex} (he : bfsStep s acc = acc) :
    BfsClosed s acc := by
  intro a ha h hs hadj
  by_cases hmem : h ∈ acc
  · exact hmem
  · have : h ∈ bfsStep s acc := mem_bfsStep.mpr (Or.inr ⟨hs, hmem, a, ha, hadj⟩)
    rw [he] at this
    exact this

theorem bfsIter_fix {s acc : List Hex} (he : bfsStep s acc = acc) :
    ∀ n, bfsIter s n acc = acc := by
  intro n
  induction n with
  | zero => rfl
  | succ n ih => simp only [bfsIter, he, ih]

theorem length_filter_le_filter {α : Type} (l : List α) (p q : α → Bool)
    (himp : ∀ a ∈ l, p a = true → q a = true) :
    (l.filter p).length ≤ (l.filter q).length := by
  induction l with
  | nil => simp
  | cons x t ih =>
    have ih2 := ih (fun a ha => himp a (List.mem_cons_of_mem x ha))
    by_cases hp : p x = true
    · have hq := himp x (List.mem_cons_self x t) hp
      simp only [List.filter_cons, hp, hq, if_true, List.length_cons]
      omega
    · have hp2 : p x = false := by revert hp; cases p x <;> simp
      cases hq : q x
      · simp only [List.filter_cons, hp2, hq]
        simp only [Bool.false_eq_true, if_false]
        exact ih2
      · simp only [List.filter_cons, hp2, hq]
        simp only [Bool.false_eq_true, if_false, if_true, List.length_cons]
        omega

theorem length_filter_lt_filter {α : Type} (l : List α) (p q : α → Bool)
    (himp : ∀ a ∈ l, p a = true → q a = true) (a0 : α) (ha0 : a0 ∈ l)
    (hp0 : p a0 = false) (hq0 : q a0 = true) :
    (l.filter p).length < (l.filter q).length := by
  induction l with
  | nil => cases ha0
  | cons x t ih =>
    have himpt : ∀ a ∈ t, p a = true → q a = true :=
      fun a ha => himp a (List.mem_cons_of_mem x ha)
    have hle : (t.filter p).length ≤ (t.filter q).length :=
      length_filter_le_filter t p q himpt
    by_cases hx : x = a0
    · subst hx
      simp only [List.filter_cons, hp0, hq0]
      simp only [Bool.false_eq_true, if_false, if_true, List.length_cons]
      omega
    · have ha0t : a0 ∈ t := by
        rcases List.mem_cons.mp ha0 with h | h
        · exact absurd h.symm hx
        · exact h
      have hlt := ih himpt ha0t
      cases hpx : p x
      · cases hqx : q x
        · simp only [List.filter_cons, hpx, hqx]
          simp only [Bool.false_eq_true, if_false]
          exact hlt
        · simp only [List.filter_cons, hpx, hqx]
          simp only [Bool.false_eq_true, if_false, if_true, List.length_cons]
          omega
      · have hqx := himp x (List.mem_cons_self x t) hpx
        simp only [List.filter_cons, hpx, hqx, if_true, List.length_cons]
        omega

theorem bfsMissing_lt {s acc : List Hex} (hne : bfsStep s acc ≠ acc) :
    bfsMissing s (bfsStep s acc) < bfsMissing s acc := by
  have hsub := subset_bfsStep s acc
  have himp : ∀ a ∈ s, (!(decide (a ∈ bfsStep s acc))) = true →
      (!(decide (a ∈ acc))) = true := by
    intro a _ ha
    simp only [Bool.not_eq_true', decide_eq_false_iff_not] at ha ⊢
    exact fun hmem => ha (hsub hmem)
  have hnew : ∃ h0, h0 ∈ s ∧ h0 ∉ acc ∧ h0 ∈ bfsStep s acc := by
    by_contra hno
    push_neg at hno
    apply hne
    unfold bfsStep
    have : s.filter (fun h => !(decide (h ∈ acc)) && acc.any (fun a => areNeighbors a h)) = [] := by
      rw [List.filter_eq_nil_iff]
      intro h hs hcond
      have hmem : h ∈ bfsStep s acc := by
        unfold bfsStep
        rw [List.mem_append]
        exact Or.inr (List.mem_filter.mpr ⟨hs, hcond⟩)
      simp only [Bool.and_eq_true, Bool.not_eq_true', decide_eq_false_iff_not] at hcond
      exact hno h hs hcond.1 hmem
    rw [this, List.append_nil]
  obtain ⟨h0, hs0, hacc0, hstep0⟩ := hnew
  apply length_filter_lt_filter s _ _ himp h0 hs0
  · simp [hstep0]
  · simp [hacc0]

theorem bfsIter_closed (s : List Hex) :
    ∀ (n : Nat) (acc : List Hex), bfsMissing s acc ≤ n → BfsClosed s (bfsIter s n acc) := by
  intro n
  induction n with
  | zero =>
    intro acc hmu
    have hall : ∀ h ∈ s, h ∈ acc := by
      intro h hs
      by_contra hmem
      have : h ∈ s.filter (fun h => !(decide (h ∈ acc))) :=
        List.mem_filter.mpr ⟨hs, by simp [hmem]⟩
      have := List.length_pos.mpr (List.ne_nil_of_mem this)
      unfold bfsMissing at hmu
      omega
    intro a _ h hs _
    exact hall h hs
  | succ n ih =>
    intro acc hmu
    by_cases hstep : bfsStep s acc = acc
    · have hfix : bfsIter s (n + 1) acc = acc := bfsIter_fix hstep (n + 1)
      rw [hfix]
      exact bfsClosed_of_step_eq hstep
    · have hlt := bfsMissing_lt hstep
      have : bfsMissing s (bfsStep s acc) ≤ n := by omega
      exact ih (bfsStep s acc) this

theorem bfsIter_sound (s : List Hex) (x : Hex) :
    ∀ (n : Nat) (acc : List Hex), (∀ a ∈ acc, ReachIn s x a) →
    ∀ y ∈ bfsIter s n acc, ReachIn s x y := by
  intro n
  induction n with
  | zero => intro acc hinv y hy; exact hinv y hy
  | succ n ih =>
    intro acc hinv y hy
    apply ih (bfsStep s acc) _ y hy
    intro a ha
    rcases mem_bfsStep.mp ha with h | ⟨hs, _, b, hb, hadj⟩
    · exact hinv a h
    · exact Relation.ReflTransGen.tail (hinv b hb) ⟨hs, hadj⟩

theorem reach_mem_of_closed {s acc : List Hex} {x y : Hex}
    (hcl : BfsClosed s acc) (hx : x ∈ acc) (hr : ReachIn s x y) : y ∈ acc := by
  induction hr with
  | refl => exact hx
  | tail _ hstep ih => exact hcl _ ih _ hstep.1 hstep.2

/-- The BFS verdict of `is_connected` on a nonempty set is exactly: every member
is reachable from the first member through members of the set. -/
theorem isConnected_cons_iff (x : Hex) (t : List Hex) :
    isConnected (x :: t) = true ↔ ∀ y ∈ x :: t, ReachIn (x :: t) x y := by
  show (x :: t).all (fun h => decide (h ∈ bfsIter (x :: t) (x :: t).length [x])) = true ↔ _
  rw [List.all_eq_true]
  constructor
  · intro hall y hy
    have := hall y hy
    rw [decide_eq_true_eq] at this
    apply bfsIter_sound (x :: t) x _ [x] _ y this
    intro a ha
    rw [List.mem_singleton] at ha
    subst ha
    exact Relation.ReflTransGen.refl
  · intro hr y hy
    rw [decide_eq_true_eq]
    have hcl : BfsClosed (x :: t) (bfsIter (x :: t) (x :: t).length [x]) := by
      apply bfsIter_closed
      calc bfsMissing (x :: t) [x] ≤ (x :: t).length := List.length_filter_le _ _
      _ = (x :: t).length := rfl
    have hx : x ∈ bfsIter (x :: t) (x :: t).length [x] :=
      subset_bfsIter (x :: t) _ [x] (List.mem_singleton.mpr rfl)
    exact reach_mem_of_closed hcl hx (hr y hy)

theorem reachIn_mono {s s2 : List Hex} {x y : Hex} (hsub : s ⊆ s2)
    (hr : ReachIn s x y) : ReachIn s2 x y := by
  apply Relation.ReflTransGen.mono _ hr
  intro a b hab
  exact ⟨hsub hab.1, hab.2⟩

theorem isConnected_singleton (c : Hex) : isConnected [c] = true := by
  rw [show ([c] : List Hex) = c :: [] from rfl, isConnected_cons_iff]
  intro y hy
  rw [List.mem_singleton] at hy
  subst hy
  exact Relation.ReflTransGen.refl

/-- Appending a cell adjacent to a member of a connected nonempty set keeps the
set connected. -/
theorem isConnected_append_single {l : List Hex} {m c : Hex}
    (hc : isConnected l = true) (hm : m ∈ l) (hadj : Adj m c) :
    isConnected (l ++ [c]) = true := by
  cases l with
  | nil => cases hm
  | cons x t =>
    rw [isConnected_cons_iff] at hc
    rw [show (x :: t) ++ [c] = x :: (t ++ [c]) from rfl, isConnected_cons_iff]
    have hsub : x :: t ⊆ x :: (t ++ [c]) := by
      intro a ha
      rcases List.mem_cons.mp ha with h | h
      · exact List.mem_cons.mpr (Or.inl h)
      · exact List.mem_cons.mpr (Or.inr (List.mem_append.mpr (Or.inl h)))
    intro y hy
    rcases List.mem_cons.mp hy with h | h
    · subst h
      exact reachIn_mono hsub (hc _ (List.mem_cons_self _ _))
    · rcases List.mem_append.mp h with h2 | h2
      · exact reachIn_mono hsub (hc y (List.mem_cons.mpr (Or.inr h2)))
      · rw [List.mem_singleton] at h2
        subst h2
        apply Relation.ReflTransGen.tail (reachIn_mono hsub (hc m hm))
        refine ⟨?_, hadj⟩
        exact List.mem_cons.mpr (Or.inr (List.mem_append.mpr (Or.inr (List.mem_singleton.mpr rfl))))

theorem not_isEmpty_of_ne {α : Type} {l : List α} (h : l ≠ []) : (!l.isEmpty) = true := by
  cases l
  · exact absurd rfl h
  · rfl

theorem boardGet_eq_none_iff {b : Board} {h : Hex} :
    boardGet b h = none ↔ h ∉ boardKeys b := by
  induction b with
  | nil => simp [boardGet, boardKeys]
  | cons e rest ih =>
    obtain ⟨k, s⟩ := e
    by_cases hk : k = h
    · subst hk
      simp [boardGet, boardKeys]
    · simp only [boardGet, boardKeys, List.map_cons, List.mem_cons, hk, if_false]
      rw [ih]
      simp only [boardKeys]
      constructor
      · intro hn hor
        rcases hor with h1 | h1
        · exact hk h1.symm
        · exact hn h1
      · intro hn h1
        exact hn (Or.inr h1)

theorem boardKeys_boardErase (b : Board) (h : Hex) :
    boardKeys (boardErase b h) = (boardKeys b).erase h := by
  induction b with
  | nil => simp [boardErase, boardKeys]
  | cons e rest ih =>
    obtain ⟨k, s⟩ := e
    by_cases hk : k = h
    · subst hk
      simp [boardErase, boardKeys, List.erase_cons_head]
    · simp only [boardErase, boardKeys, List.map_cons, hk, if_false]
      rw [List.erase_cons_tail]
      · exact congrArg (List.cons k) ih
      · simp [hk]

theorem boardKeys_boardSet_mem {b : Board} {h : Hex} (s : List Piece)
    (hmem : h ∈ boardKeys b) : boardKeys (boardSet b h s) = boardKeys b := by
  induction b with
  | nil => cases hmem
  | cons e rest ih =>
    obtain ⟨k, t⟩ := e
    by_cases hk : k = h
    · subst hk
      simp [boardSet, boardKeys]
    · simp only [boardKeys, List.map_cons, List.mem_cons] at hmem
      rcases hmem with h1 | h1
      · exact absurd h1.symm hk
      · simp only [boardSet, boardKeys, List.map_cons, hk, if_false]
        exact congrArg (List.cons k) (ih h1)

theorem boardKeys_boardSet_fresh {b : Board} {h : Hex} (s : List Piece)
    (hmem : h ∉ boardKeys b) : boardKeys (boardSet b h s) = boardKeys b ++ [h] := by
  induction b with
  | nil => simp [boardSet, boardKeys]
  | cons e rest ih =>
    obtain ⟨k, t⟩ := e
    simp only [boardKeys, List.map_cons, List.mem_cons] at hmem
    push_neg at hmem
    simp only [boardSet, boardKeys, List.map_cons, Ne.symm hmem.1, if_false]
    exact congrArg (List.cons k) (ih hmem.2)

theorem nonempty_boardErase {b : Board} {h : Hex} (hne : ∀ e ∈ b, e.2 ≠ []) :
    ∀ e ∈ boardErase b h, e.2 ≠ [] := by
  induction b with
  | nil => simp [boardErase]
  | cons x rest ih =>
    obtain ⟨k, s⟩ := x
    by_cases hk : k = h
    · subst hk
      simp only [boardErase, if_true]
      exact fun e he => hne e (List.mem_cons_of_mem _ he)
    · simp only [boardErase, hk, if_false]
      intro e he
      rcases List.mem_cons.mp he with h1 | h1
      · exact h1 ▸ hne (k, s) (List.mem_cons_self _ _)
      · exact ih (fun e2 he2 => hne e2 (List.mem_cons_of_mem _ he2)) e h1

theorem nonempty_boardSet {b : Board} {h : Hex} {s : List Piece}
    (hne : ∀ e ∈ b, e.2 ≠ []) (hs : s ≠ []) :
    ∀ e ∈ boardSet b h s, e.2 ≠ [] := by
  induction b with
  | nil =>
    intro e he
    simp only [boardSet, List.mem_singleton] at he
    subst he
    exact hs
  | cons x rest ih =>
    obtain ⟨k, t⟩ := x
    by_cases hk : k = h
    · subst hk
      simp only [boardSet, if_true]
      intro e he
      rcases List.mem_cons.mp he with h1 | h1
      · subst h1; exact hs
      · exact hne e (List.mem_cons_of_mem _ h1)
    · simp only [boardSet, hk, if_false]
      intro e he
      rcases List.mem_cons.mp he with h1 | h1
      · exact h1 ▸ hne (k, t) (List.mem_cons_self _ _)
      · exact ih (fun e2 he2 => hne e2 (List.mem_cons_of_mem _ he2)) e h1

theorem occupiedList_eq_keys {b : Board} (hne : ∀ e ∈ b, e.2 ≠ []) :
    occupiedList b = boardKeys b := by
  induction b with
  | nil => rfl
  | cons e rest ih =>
    have h1 : e.2 ≠ [] := hne e (List.mem_cons_self _ _)
    simp only [occupiedList, boardKeys, List.filter_cons]
    rw [if_pos (not_isEmpty_of_ne h1)]
    simp only [List.map_cons]
    rw [show (rest.filter (fun e => !e.2.isEmpty)).map Prod.fst = occupiedList rest from rfl]
    rw [ih (fun e2 he2 => hne e2 (List.mem_cons_of_mem _ he2))]
    rfl

theorem goodBoard_boardErase {b : Board} (hg : GoodBoard b) (h : Hex) :
    GoodBoard (boardErase b h) := by
  obtain ⟨hnd, hne⟩ := hg
  constructor
  · rw [boardKeys_boardErase]
    exact hnd.erase h
  · exact nonempty_boardErase hne

theorem goodBoard_boardSet {b : Board} {h : Hex} {s : List Piece}
    (hg : GoodBoard b) (hs : s ≠ []) : GoodBoard (boardSet b h s) := by
  obtain ⟨hnd, hne⟩ := hg
  refine ⟨?_, nonempty_boardSet hne hs⟩
  by_cases hmem : h ∈ boardKeys b
  · rw [boardKeys_boardSet_mem s hmem]
    exact hnd
  · rw [boardKeys_boardSet_fresh s hmem]
    rw [List.nodup_append]
    exact ⟨hnd, List.nodup_singleton h, by
      intro a ha hb
      rw [List.mem_singleton] at hb
      subst hb
      exact hmem ha⟩

theorem occupiedList_boardSet_fresh {b : Board} {h : Hex} {s : List Piece}
    (hget : boardGet b h = none) (hs : s ≠ []) :
    occupiedList (boardSet b h s) = occupiedList b ++ [h] := by
  induction b with
  | nil =>
    simp only [boardSet, occupiedList, List.filter_cons, List.filter_nil]
    rw [if_pos (not_isEmpty_of_ne hs)]
    rfl
  | cons e rest ih =>
    obtain ⟨k, t⟩ := e
    simp only [boardGet] at hget
    by_cases hk : k = h
    · rw [if_pos hk] at hget
      cases hget
    · rw [if_neg hk] at hget
      simp only [boardSet, hk, if_false, occupiedList, List.filter_cons]
      by_cases ht : (!t.isEmpty) = true
      · rw [if_pos ht, if_pos ht]
        simp only [List.map_cons]
        rw [show ((boardSet rest h s).filter (fun e => !e.2.isEmpty)).map Prod.fst =
          occupiedList (boardSet rest h s) from rfl, ih hget]
        rfl
      · rw [if_neg ht, if_neg ht]
        exact ih hget

theorem occupiedList_boardErase {b : Board} (hg : GoodBoard b) (h : Hex) :
    occupiedList (boardErase b h) = (occupiedList b).erase h := by
  rw [occupiedList_eq_keys (nonempty_boardErase hg.2), boardKeys_boardErase,
    occupiedList_eq_keys hg.2]

theorem occupiedList_boardSet_mem {b : Board} {h : Hex} {s : List Piece}
    (hg : GoodBoard b) (hmem : h ∈ boardKeys b) (hs : s ≠ []) :
    occupiedList (boardSet b h s) = occupiedList b := by
  rw [occupiedList_eq_keys (nonempty_boardSet hg.2 hs), boardKeys_boardSet_mem s hmem,
    occupiedList_eq_keys hg.2]

theorem boardGet_boardSet_self (b : Board) (h : Hex) (s : List Piece) :
    boardGet (boardSet b h s) h = some s := by
  induction b with
  | nil => simp [boardSet, boardGet]
  | cons e rest ih =>
    obtain ⟨k, t⟩ := e
    by_cases hk : k = h
    · subst hk
      simp [boardSet, boardGet]
    · simp [boardSet, boardGet, hk, ih]

theorem boardGet_boardSet_ne {b : Board} {h h2 : Hex} (s : List Piece) (hne : h2 ≠ h) :
    boardGet (boardSet b h s) h2 = boardGet b h2 := by
  induction b with
  | nil => simp [boardSet, boardGet, Ne.symm hne]
  | cons e rest ih =>
    obtain ⟨k, t⟩ := e
    by_cases hk : k = h
    · subst hk
      simp only [boardSet, if_true, boardGet, Ne.symm hne, if_false]
    · simp only [boardSet, hk, if_false, boardGet]
      by_cases hk2 : k = h2
      · rw [if_pos hk2, if_pos hk2]
      · rw [if_neg hk2, if_neg hk2, ih]

theorem boardGet_mem {b : Board} {h : Hex} {s : List Piece}
    (hget : boardGet b h = some s) : (h, s) ∈ b := by
  induction b with
  | nil => cases hget
  | cons e rest ih =>
    obtain ⟨k, t⟩ := e
    simp only [boardGet] at hget
    by_cases hk : k = h
    · rw [if_pos hk] at hget
      injection hget with hget
      subst hget
      subst hk
      exact List.mem_cons_self _ _
    · rw [if_neg hk] at hget
      exact List.mem_cons_of_mem _ (ih hget)

theorem exists_boardGet_of_mem_keys {b : Board} {h : Hex} (hmem : h ∈ boardKeys b) :
    ∃ s, boardGet b h = some s := by
  cases hb : boardGet b h with
  | none => exact absurd hmem (boardGet_eq_none_iff.mp hb)
  | some s => exact ⟨s, rfl⟩

theorem mem_keys_of_boardGet {b : Board} {h : Hex} {s : List Piece}
    (hget : boardGet b h = some s) : h ∈ boardKeys b := by
  by_contra hx
  rw [boardGet_eq_none_iff.mpr hx] at hget
  cases hget

/-- The occupied set of the board after `execute_move`'s mutation is exactly
the set the second One Hive check was made on. -/
theorem occupiedList_moveMutatedBoard {b : Board} {f t : Hex} {s : List Piece} {piece : Piece}
    (hg : GoodBoard b) (hget : boardGet b f = some s) (hs : s ≠ []) :
    occupiedList (moveMutatedBoard b f t s piece) =
      insertHex (if s.length = 1 then (occupiedList b).erase f else occupiedList b) t ∧
    GoodBoard (moveMutatedBoard b f t s piece) := by
  have hocc : occupiedList b = boardKeys b := occupiedList_eq_keys hg.2
  have hfmem : f ∈ boardKeys b := mem_keys_of_boardGet hget
  by_cases h1 : s.length = 1
  · have hdrop : s.dropLast = [] := by
      apply List.eq_nil_of_length_eq_zero
      rw [List.length_dropLast]
      omega
    have hb1 : moveMutatedBoard b f t s piece =
        boardSet (boardErase b f) t (((boardGet (boardErase b f) t).getD []) ++ [piece]) := by
      unfold moveMutatedBoard
      rw [if_pos hdrop]
    have hgood1 : GoodBoard (boardErase b f) := goodBoard_boardErase hg f
    have hocc1 : occupiedList (boardErase b f) = (occupiedList b).erase f :=
      occupiedList_boardErase hg f
    have hkeys1 : boardKeys (boardErase b f) = (boardKeys b).erase f :=
      boardKeys_boardErase b f
    rw [hb1, if_pos h1]
    by_cases hmem : t ∈ (occupiedList b).erase f
    · have htk : t ∈ boardKeys (boardErase b f) := by
        rw [hkeys1, ← hocc]
        exact hmem
      obtain ⟨s0, hs0⟩ := exists_boardGet_of_mem_keys htk
      have hs0ne : s0 ≠ [] := hgood1.2 (t, s0) (boardGet_mem hs0)
      have hnewne : ((boardGet (boardErase b f) t).getD []) ++ [piece] ≠ [] := by
        simp
      constructor
      · rw [occupiedList_boardSet_mem hgood1 htk hnewne, hocc1, insertHex, if_pos hmem]
      · exact goodBoard_boardSet hgood1 hnewne
    · have htk : t ∉ boardKeys (boardErase b f) := by
        rw [hkeys1, ← hocc]
        exact hmem
      have hgn : boardGet (boardErase b f) t = none := boardGet_eq_none_iff.mpr htk
      constructor
      · rw [occupiedList_boardSet_fresh hgn (by simp), hocc1, insertHex, if_neg hmem]
      · exact goodBoard_boardSet hgood1 (by simp)
  · have hdrop : s.dropLast ≠ [] := by
      intro hx
      have := congrArg List.length hx
      rw [List.length_dropLast] at this
      simp only [List.length_nil] at this
      have hlen : s.length ≠ 0 := by
        intro h0
        exact hs (List.eq_nil_of_length_eq_zero h0)
      omega
    have hb1 : moveMutatedBoard b f t s piece =
        boardSet (boardSet b f s.dropLast) t
          (((boardGet (boardSet b f s.dropLast) t).getD []) ++ [piece]) := by
      unfold moveMutatedBoard
      rw [if_neg hdrop]
    have hgood1 : GoodBoard (boardSet b f s.dropLast) := goodBoard_boardSet hg hdrop
    have hocc1 : occupiedList (boardSet b f s.dropLast) = occupiedList b :=
      occupiedList_boardSet_mem hg hfmem hdrop
    have hkeys1 : boardKeys (boardSet b f s.dropLast) = boardKeys b :=
      boardKeys_boardSet_mem _ hfmem
    rw [hb1, if_neg h1]
    by_cases hmem : t ∈ occupiedList b
    · have htk : t ∈ boardKeys (boardSet b f s.dropLast) := by
        rw [hkeys1, ← hocc]
        exact hmem
      have hnewne : ((boardGet (boardSet b f s.dropLast) t).getD []) ++ [piece] ≠ [] := by
        simp
      constructor
      · rw [occupiedList_boardSet_mem hgood1 htk hnewne, hocc1, insertHex, if_pos hmem]
      · exact goodBoard_boardSet hgood1 hnewne
    · have htk : t ∉ boardKeys (boardSet b f s.dropLast) := by
        rw [hkeys1, ← hocc]
        exact hmem
      have hgn : boardGet (boardSet b f s.dropLast) t = none := boardGet_eq_none_iff.mpr htk
      constructor
      · rw [occupiedList_boardSet_fresh hgn (by simp), hocc1, insertHex, if_neg hmem]
      · exact goodBoard_boardSet hgood1 (by simp)

theorem mem_occupiedList_of_boardGet {b : Board} {n : Hex} {s : List Piece}
    (hget : boardGet b n = some s) (hs : s ≠ []) : n ∈ occupiedList b := by
  induction b with
  | nil => cases hget
  | cons e rest ih =>
    obtain ⟨k, t⟩ := e
    simp only [boardGet] at hget
    by_cases hk : k = n
    · rw [if_pos hk] at hget
      injection hget with hget
      subst hget
      subst hk
      simp only [occupiedList, List.filter_cons]
      rw [if_pos (not_isEmpty_of_ne hs)]
      exact List.mem_cons_self _ _
    · rw [if_neg hk] at hget
      simp only [occupiedList, List.filter_cons]
      by_cases ht : (!t.isEmpty) = true
      · rw [if_pos ht]
        exact List.mem_cons_of_mem _ (ih hget)
      · rw [if_neg ht]
        exact ih hget

theorem bnot_eq_false {b : Bool} (h : (!b) = false) : b = true := by
  cases b
  · simp at h
  · rfl

theorem setCurrentHand_board (g : Game) (h : Hand) : (setCurrentHand g h).board = g.board := by
  unfold setCurrentHand
  split <;> rfl

theorem executeMove_conn {g : Game} {m : MoveRequest} {g1 : Game}
    (hg : GoodBoard g.board) (h : executeMove g m = .ok g1) :
    isConnected (occupiedList g1.board) = true ∧ GoodBoard g1.board := by
  simp only [executeMove] at h
  split at h
  · cases h
  rename_i f hf
  split at h
  · cases h
  rename_i piece hlast
  split at h
  · cases h
  rename_i hcol
  by_cases hlen : ((boardGet g.board f).getD []).length = 1
  · rw [if_pos hlen] at h
    split at h
    · cases h
    rename_i hc1
    split at h
    · cases h
    rename_i hc2
    split at h
    · cases h
    rename_i hfto
    split at h
    · cases h
    rename_i hvalid
    injection h with h
    subst h
    have hsget : boardGet g.board f = some ((boardGet g.board f).getD []) := by
      cases hbg : boardGet g.board f with
      | none =>
        rw [hbg] at hlast
        simp at hlast
      | some s0 => rfl
    have hsne : (boardGet g.board f).getD [] ≠ [] := by
      intro hx
      rw [hx] at hlast
      cases hlast
    have hmm := @occupiedList_moveMutatedBoard _ _ m.to_hex _ piece hg hsget hsne
    simp only [Bool.not_eq_true, Bool.not_eq_false] at hc2
    have hc2 := bnot_eq_false hc2
    constructor
    · rw [hmm.1, if_pos hlen]
      exact hc2
    · exact hmm.2
  · rw [if_neg hlen] at h
    split at h
    · cases h
    rename_i hc1
    split at h
    · cases h
    rename_i hc2
    split at h
    · cases h
    rename_i hfto
    split at h
    · cases h
    rename_i hvalid
    injection h with h
    subst h
    have hsget : boardGet g.board f = some ((boardGet g.board f).getD []) := by
      cases hbg : boardGet g.board f with
      | none =>
        rw [hbg] at hlast
        simp at hlast
      | some s0 => rfl
    have hsne : (boardGet g.board f).getD [] ≠ [] := by
      intro hx
      rw [hx] at hlast
      cases hlast
    have hmm := @occupiedList_moveMutatedBoard _ _ m.to_hex _ piece hg hsget hsne
    simp only [Bool.not_eq_true, Bool.not_eq_false] at hc2
    have hc2 := bnot_eq_false hc2
    constructor
    · rw [hmm.1, if_neg hlen]
      exact hc2
    · exact hmm.2

theorem not_mem_keys_of_not_occupiedAt {b : Board} {t : Hex}
    (hg2 : ∀ e ∈ b, e.2 ≠ []) (hx : boardOccupiedAt b t = false) : t ∉ boardKeys b := by
  intro hmem
  obtain ⟨s, hs⟩ := exists_boardGet_of_mem_keys hmem
  have hne := hg2 (t, s) (boardGet_mem hs)
  unfold boardOccupiedAt at hx
  rw [hs] at hx
  have h2 : s.isEmpty = true := bnot_eq_false hx
  rw [List.isEmpty_iff] at h2
  exact hne h2

theorem mem_keys_of_boardTop {b : Board} {pb : Hex} {top : Piece}
    (htop : boardTop b pb = some top) :
    pb ∈ boardKeys b ∧ ∃ s, boardGet b pb = some s ∧ s ≠ [] := by
  unfold boardTop at htop
  cases hbg : boardGet b pb with
  | none =>
    rw [hbg] at htop
    cases htop
  | some s =>
    rw [hbg] at htop
    have hne : s ≠ [] := by
      intro hx
      rw [hx] at htop
      cases htop
    exact ⟨mem_keys_of_boardGet hbg, s, rfl, hne⟩

theorem executeSpecial_conn {g : Game} {m : MoveRequest} {g1 : Game}
    (hg : GoodBoard g.board) (h : executeSpecial g m = .ok g1) :
    isConnected (occupiedList g1.board) = true ∧ GoodBoard g1.board := by
  simp only [executeSpecial] at h
  split at h
  · cases h
  rename_i f hf
  split at h
  · cases h
  rename_i thrown rest hstack
  split at h
  · cases h
  rename_i hrest
  split at h
  · cases h
  rename_i hlmt
  split at h
  · cases h
  rename_i hfrozen
  split at h
  · cases h
  rename_i hdest
  split at h
  · cases h
  rename_i hconn
  split at h
  · cases h
  rename_i pb hfind
  injection h with h
  subst h
  simp only [Bool.not_eq_true] at hdest hconn
  have hconn2 : isConnected ((occupiedList g.board).erase f) = true := bnot_eq_false hconn
  have htonk : m.to_hex ∉ boardKeys g.board := not_mem_keys_of_not_occupiedAt hg.2 hdest
  have hpbmem : pb ∈ getNeighbors f := List.mem_of_find?_eq_some hfind
  have hpbcond : specialThrowCond g f m.to_hex (occupiedList g.board) pb = true :=
    List.find?_some hfind
  unfold specialThrowCond at hpbcond
  cases htop : boardTop g.board pb with
  | none =>
    rw [htop] at hpbcond
    cases hpbcond
  | some top =>
    rw [htop] at hpbcond
    simp only [Bool.and_eq_true, decide_eq_true_eq] at hpbcond
    have hadjdest : pb ∈ getNeighbors m.to_hex := hpbcond.1.1.1.1.2
    have hkeys := mem_keys_of_boardTop htop
    have hpbf : pb ≠ f := ne_of_mem_getNeighbors hpbmem
    have hocck : occupiedList g.board = boardKeys g.board := occupiedList_eq_keys hg.2
    have htoerase : m.to_hex ∉ boardKeys (boardErase g.board f) := by
      rw [boardKeys_boardErase]
      intro hmem
      exact htonk (List.mem_of_mem_erase hmem)
    have hgn : boardGet (boardErase g.board f) m.to_hex = none :=
      boardGet_eq_none_iff.mpr htoerase
    have hocc2 : occupiedList (boardSet (boardErase g.board f) m.to_hex [thrown]) =
        (occupiedList g.board).erase f ++ [m.to_hex] := by
      rw [occupiedList_boardSet_fresh hgn (by simp), occupiedList_boardErase hg]
    constructor
    · rw [hocc2]
      apply isConnected_append_single hconn2
      · rw [hocck]
        rw [List.Nodup.mem_erase_iff hg.1]
        exact ⟨hpbf, hkeys.1⟩
      · exact adj_symm (adj_of_mem_getNeighbors hadjdest)
    · exact goodBoard_boardSet (goodBoard_boardErase hg f) (by simp)

theorem setCurrentHand_current_turn (g : Game) (h : Hand) :
    (setCurrentHand g h).current_turn = g.current_turn := by
  unfold setCurrentHand
  split <;> rfl

theorem setCurrentHand_turn_number (g : Game) (h : Hand) :
    (setCurrentHand g h).turn_number = g.turn_number := by
  unfold setCurrentHand
  split <;> rfl

theorem executePlace_ok_shape {g : Game} {m : MoveRequest} {nid : String} {g1 : Game}
    (h : executePlace g m nid = .ok g1) :
    ∃ pt, m.piece_type = some pt ∧
      boardOccupiedAt g.board m.to_hex = false ∧
      g1.board = boardSet g.board m.to_hex
        [{ type := pt, color := g.current_turn, id := nid }] ∧
      (g.board = [] ∨
        ((getNeighbors m.to_hex).any (fun n => (boardGet g.board n).isSome) = true) ∨
        ((getNeighbors m.to_hex).any (fun n =>
          match boardTop g.board n with
          | some p => decide (p.color = g.current_turn)
          | none => false) = true)) := by
  simp only [executePlace] at h
  split at h
  · cases h
  rename_i pt hpt
  split at h
  · cases h
  rename_i hv
  split at h
  · cases h
  rename_i hocc
  simp only [setCurrentHand_board, setCurrentHand_current_turn, setCurrentHand_turn_number,
    Bool.not_eq_true] at h hocc
  refine ⟨pt, hpt, hocc, ?_⟩
  split at h
  · rename_i hempty
    injection h with h
    subst h
    exact ⟨by rw [setCurrentHand_board], Or.inl hempty⟩
  · rename_i hnempty
    split at h
    · split at h
      · rename_i hany
        injection h with h
        subst h
        exact ⟨by rw [setCurrentHand_board], Or.inr (Or.inl hany)⟩
      · cases h
    · split at h
      · cases h
      · rename_i hown
        split at h
        · cases h
        rename_i hopp
        injection h with h
        subst h
        refine ⟨by rw [setCurrentHand_board], Or.inr (Or.inr ?_)⟩
        simp only [Bool.not_eq_true] at hown
        exact bnot_eq_false hown

theorem executePlace_conn {g : Game} {m : MoveRequest} {nid : String} {g1 : Game}
    (hg : GoodBoard g.board) (hc : isConnected (occupiedList g.board) = true)
    (h : executePlace g m nid = .ok g1) :
    isConnected (occupiedList g1.board) = true ∧ GoodBoard g1.board := by
  obtain ⟨pt, hpt, hocc, hboard, hcases⟩ := executePlace_ok_shape h
  have htonk : m.to_hex ∉ boardKeys g.board := not_mem_keys_of_not_occupiedAt hg.2 hocc
  have hgn : boardGet g.board m.to_hex = none := boardGet_eq_none_iff.mpr htonk
  have hfresh : occupiedList g1.board = occupiedList g.board ++ [m.to_hex] := by
    rw [hboard]
    exact occupiedList_boardSet_fresh hgn (by simp)
  have hgood1 : GoodBoard g1.board := by
    rw [hboard]
    exact goodBoard_boardSet hg (by simp)
  refine ⟨?_, hgood1⟩
  rcases hcases with hempty | hany | hany
  · rw [hfresh, hempty]
    simpa using isConnected_singleton m.to_hex
  · rw [List.any_eq_true] at hany
    obtain ⟨n, hnmem, hnget⟩ := hany
    obtain ⟨s, hs⟩ := Option.isSome_iff_exists.mp hnget
    have hsne := hg.2 (n, s) (boardGet_mem hs)
    have hnocc : n ∈ occupiedList g.board := mem_occupiedList_of_boardGet hs hsne
    rw [hfresh]
    exact isConnected_append_single hc hnocc (adj_symm (adj_of_mem_getNeighbors hnmem))
  · rw [List.any_eq_true] at hany
    obtain ⟨n, hnmem, hnget⟩ := hany
    cases htopn : boardTop g.board n with
    | none =>
      rw [htopn] at hnget
      cases hnget
    | some p =>
      obtain ⟨hnk, s, hs, hsne⟩ := mem_keys_of_boardTop htopn
      have hnocc : n ∈ occupiedList g.board := mem_occupiedList_of_boardGet hs hsne
      rw [hfresh]
      exact isConnected_append_single hc hnocc (adj_symm (adj_of_mem_getNeighbors hnmem))

theorem checkWinCondition_board (g : Game) : (checkWinCondition g).board = g.board := by
  simp only [checkWinCondition]
  split
  · rfl
  split
  · rfl
  split
  · rfl
  rfl

theorem processMovePost_board (m : MoveRequest) (log : MoveLog) (g1 : Game) :
    (processMovePost m log g1).board = g1.board := by
  simp only [processMovePost]
  rw [checkWinCondition_board]

theorem processMove_ok_inv {g : Game} {m : MoveRequest} {nid : String} {g2 : Game}
    (h : processMove g m nid = .ok g2) :
    g.status ≠ GameStatus.FINISHED ∧ validateTurn g m = none ∧
      ∃ g1, execDispatch g m nid = .ok g1 ∧ g2 = processMovePost m (mkLog g m) g1 := by
  simp only [processMove] at h
  split at h
  · cases h
  rename_i hstat
  split at h
  · cases h
  rename_i hval
  split at h
  · rename_i g1 msg heq
    cases h
  rename_i g1 heq
  injection h with h
  exact ⟨hstat, hval, g1, heq, h.symm⟩

theorem execDispatch_conn {g : Game} {m : MoveRequest} {nid : String} {g1 : Game}
    (hg : GoodBoard g.board) (hc : isConnected (occupiedList g.board) = true)
    (h : execDispatch g m nid = .ok g1) :
    isConnected (occupiedList g1.board) = true ∧ GoodBoard g1.board := by
  unfold execDispatch at h
  cases m2 : m.action <;> rw [m2] at h
  · exact executePlace_conn hg hc h
  · exact executeMove_conn hg h
  · exact executeSpecial_conn hg h

theorem processMove_preserves {g : Game} {m : MoveRequest} {nid : String} {g2 : Game}
    (hg : GoodBoard g.board) (hc : isConnected (occupiedList g.board) = true)
    (h : processMove g m nid = .ok g2) :
    isConnected (occupiedList g2.board) = true ∧ GoodBoard g2.board := by
  obtain ⟨_, _, g1, hexec, hpost⟩ := processMove_ok_inv h
  have hd := execDispatch_conn hg hc hexec
  have hb : g2.board = g1.board := by
    rw [hpost, processMovePost_board]
  rw [hb]
  exact hd

theorem applyMoves_preserves :
    ∀ (ms : List (MoveRequest × String)) (g g2 : Game), GoodBoard g.board →
      isConnected (occupiedList g.board) = true → applyMoves g ms = some g2 →
      isConnected (occupiedList g2.board) = true ∧ GoodBoard g2.board := by
  intro ms
  induction ms with
  | nil =>
    intro g g2 hg hc h
    simp only [applyMoves] at h
    injection h with h
    subst h
    exact ⟨hc, hg⟩
  | cons p rest ih =>
    intro g g2 hg hc h
    obtain ⟨m, nid⟩ := p
    simp only [applyMoves] at h
    split at h
    · rename_i gmid hmid
      have hp := processMove_preserves hg hc hmid
      exact ih gmid g2 hp.2 hp.1 h
    · cases h

/-- C1: for every game record and every sequence of actions each accepted by
`process_move` (PLACE, MOVE, or SPECIAL), the set of occupied board
coordinates is connected after every committed action (the One Hive Rule).
Part (a): one accepted action on any well-formed record with a connected
occupied set leaves the occupied set connected (a MOVE is accepted only after
both One Hive checks on the lifted and landed sets pass, and a SPECIAL throw
only after the lift check passes).  Part (b): after any accepted action
sequence from `create_game` the occupied set is connected — applied to every
prefix of a sequence this is the invariant after every committed action. -/
theorem c1_one_hive_invariant :
    (∀ (g : Game) (m : MoveRequest) (nid : String) (g2 : Game), GoodBoard g.board →
      isConnected (occupiedList g.board) = true → processMove g m nid = .ok g2 →
      isConnected (occupiedList g2.board) = true) ∧
    (∀ (gid : String) (adv : Bool) (ms : List (MoveRequest × String)) (g2 : Game),
      applyMoves (createGame gid adv) ms = some g2 →
      isConnected (occupiedList g2.board) = true) := by
  constructor
  · intro g m nid g2 hg hc h
    exact (processMove_preserves hg hc h).1
  · intro gid adv ms g2 h
    have hg : GoodBoard (createGame gid adv).board := by
      constructor
      · exact List.nodup_nil
      · intro e he
        cases he
    have hc : isConnected (occupiedList (createGame gid adv).board) = true := rfl
    exact (applyMoves_preserves ms _ g2 hg hc h).1

/-- Witness for C1 at a concrete input: the opening queen placement from a
fresh standard game is accepted and leaves a connected occupied set. -/
theorem c1_one_hive_invariant_witness :
    isConnected (occupiedList
      ((applyMoves (createGame "w" false)
        [({ action := ActionType.PLACE, piece_type := some PieceType.QUEEN, to_hex := (0, 0) },
          "p1")]).getD (createGame "w" false)).board) = true :=
  c1_one_hive_invariant.2 "w" false
    [({ action := ActionType.PLACE, piece_type := some PieceType.QUEEN, to_hex := (0, 0) }, "p1")]
    _ (by decide)

theorem filter_map_length {α β : Type} (l : List α) (f : α → β) (p : β → Bool) :
    ((l.map f).filter p).length = (l.filter (fun a => p (f a))).length := by
  induction l with
  | nil => rfl
  | cons x t ih =>
    simp only [List.map_cons, List.filter_cons]
    cases hp : p (f x)
    · simpa using ih
    · simpa using ih

theorem getCommonNeighbors_length_translate (a d : Hex) :
    (getCommonNeighbors a (addHex a d)).length =
      (hexDirections.filter
        (fun dj => decide (hexDistance (0, 0) (addHex d dj) = 1))).length := by
  unfold getCommonNeighbors
  have h1 : getNeighbors (addHex a d) = hexDirections.map (fun dj => addHex a (addHex d dj)) := by
    unfold getNeighbors
    apply List.map_congr_left
    intro x _
    simp [addHex, add_assoc]
  rw [h1, filter_map_length]
  have h2 : ∀ dj ∈ hexDirections,
      (decide (addHex a (addHex d dj) ∈ getNeighbors a)) =
        decide (hexDistance (0, 0) (addHex d dj) = 1) := by
    intro dj _
    rw [decide_eq_decide]
    rw [mem_getNeighbors_iff, hexDistance_addHex]
  rw [List.filter_congr h2]

theorem getCommonNeighbors_length_two {a b : Hex} (hadj : areNeighbors a b = true) :
    (getCommonNeighbors a b).length = 2 := by
  have hd : hexDistance a b = 1 := by simpa [areNeighbors] using hadj
  have hb : b ∈ getNeighbors a := mem_getNeighbors_iff.mpr hd
  obtain ⟨d, hdmem, rfl⟩ := List.mem_map.mp hb
  rw [getCommonNeighbors_length_translate]
  fin_cases hdmem <;> decide

/-- C7: for every pair of adjacent cells and every occupied set, the cells
have exactly two common neighbors, and `can_slide` returns true iff exactly
one of them is occupied — blocked when both are occupied (pinch point) and
blocked when neither is (the slide would lose hive contact). -/
theorem c7_canSlide_exactly_one (a b : Hex) (occ : List Hex)
    (hadj : areNeighbors a b = true) :
    (getCommonNeighbors a b).length = 2 ∧
    (canSlide a b occ = true ↔
      ((getCommonNeighbors a b).filter (fun n => decide (n ∈ occ))).length = 1) := by
  have h2 := getCommonNeighbors_length_two hadj
  refine ⟨h2, ?_⟩
  have hle : ((getCommonNeighbors a b).filter (fun n => decide (n ∈ occ))).length ≤ 2 := by
    calc ((getCommonNeighbors a b).filter (fun n => decide (n ∈ occ))).length
        ≤ (getCommonNeighbors a b).length := List.length_filter_le _ _
      _ = 2 := h2
  simp only [canSlide]
  constructor
  · intro h
    by_cases h1 : ((getCommonNeighbors a b).filter (fun n => decide (n ∈ occ))).length ≥ 2
    · rw [if_pos h1] at h
      cases h
    · rw [if_neg h1] at h
      by_cases h0 : ((getCommonNeighbors a b).filter (fun n => decide (n ∈ occ))).length = 0
      · rw [if_pos h0] at h
        cases h
      · omega
  · intro h
    rw [h]
    rfl

/-- Witness for C7 at a concrete input: sliding from the origin to `(1, 0)`
with exactly one common neighbor occupied. -/
theorem c7_canSlide_exactly_one_witness :
    areNeighbors (0, 0) (1, 0) = true ∧
    ((getCommonNeighbors (0, 0) (1, 0)).length = 2 ∧
      (canSlide (0, 0) (1, 0) [(1, -1)] = true ↔
        ((getCommonNeighbors (0, 0) (1, 0)).filter
          (fun n => decide (n ∈ ([(1, -1)] : List Hex)))).length = 1)) :=
  ⟨by decide, c7_canSlide_exactly_one (0, 0) (1, 0) [(1, -1)] (by decide)⟩

/-- C2 counterexample: for the beetle, the generator and validator disagree.
With the beetle at the origin and both common neighbors of the origin and
`(1, 0)` occupied (the lifted occupied set `[(1, -1), (0, 1)]`),
`validate_beetle_move` accepts the slide to `(1, 0)` (it checks adjacency
only) while `gen_beetle_moves` rejects it (closed gate at ground level), so
the generated destination set does not equal the validator-accepted set. -/
theorem c2_beetle_counterexample :
    validateBeetleMove (0, 0) (1, 0) = true ∧
    ((1, 0) : Hex) ∉ genBeetleMoves c2GateGame (0, 0) [(1, -1), (0, 1)] := by
  constructor
  · decide
  · decide

/-- C2 amended: for the beetle the symmetry holds in one direction only —
every destination returned by `gen_beetle_moves` is accepted by
`validate_beetle_move` (the active validator accepts exactly the adjacent
cells, omitting the generator's ground-level gate and hive-contact checks, so
the reverse containment fails as the counterexample shows). -/
theorem c2_beetle_gen_subset_validator :
    ∀ (g : Game) (start dst : Hex) (occ : List Hex),
      dst ∈ genBeetleMoves g start occ → validateBeetleMove start dst = true := by
  intro g start dst occ hmem
  simp only [genBeetleMoves, List.mem_filter] at hmem
  have hadj : Adj start dst := adj_of_mem_getNeighbors hmem.1
  exact hadj

/-- Witness for C2's amended theorem at a concrete input: the climb onto an
adjacent occupied cell is generated and accepted. -/
theorem c2_beetle_gen_subset_validator_witness :
    (((1, 0) : Hex) ∈ genBeetleMoves c2ClimbGame (0, 0) [(1, 0)]) ∧
    validateBeetleMove (0, 0) (1, 0) = true :=
  ⟨by decide, c2_beetle_gen_subset_validator c2ClimbGame (0, 0) (1, 0) [(1, 0)] (by decide)⟩

theorem setCurrentHand_status (g : Game) (h : Hand) : (setCurrentHand g h).status = g.status := by
  unfold setCurrentHand
  split <;> rfl

theorem setCurrentHand_winner (g : Game) (h : Hand) : (setCurrentHand g h).winner = g.winner := by
  unfold setCurrentHand
  split <;> rfl

theorem setCurrentHand_history (g : Game) (h : Hand) :
    (setCurrentHand g h).history = g.history := by
  unfold setCurrentHand
  split <;> rfl

theorem setCurrentHand_last_moved_to (g : Game) (h : Hand) :
    (setCurrentHand g h).last_moved_to = g.last_moved_to := by
  unfold setCurrentHand
  split <;> rfl

theorem setCurrentHand_pillbug_frozen_hex (g : Game) (h : Hand) :
    (setCurrentHand g h).pillbug_frozen_hex = g.pillbug_frozen_hex := by
  unfold setCurrentHand
  split <;> rfl

theorem setCurrentHand_game_id (g : Game) (h : Hand) :
    (setCurrentHand g h).game_id = g.game_id := by
  unfold setCurrentHand
  split <;> rfl

theorem setCurrentHand_advanced_mode (g : Game) (h : Hand) :
    (setCurrentHand g h).advanced_mode = g.advanced_mode := by
  unfold setCurrentHand
  split <;> rfl

theorem setCurrentHand_self (g : Game) : setCurrentHand g (currentHand g) = g := by
  unfold setCurrentHand currentHand
  split <;> rfl

theorem executeMove_ok_fields {g : Game} {m : MoveRequest} {g1 : Game}
    (h : executeMove g m = .ok g1) :
    g1.status = g.status ∧ g1.winner = g.winner ∧ g1.current_turn = g.current_turn ∧
    g1.turn_number = g.turn_number ∧ g1.white_pieces_hand = g.white_pieces_hand ∧
    g1.black_pieces_hand = g.black_pieces_hand ∧ g1.history = g.history ∧
    g1.last_moved_to = g.last_moved_to ∧ g1.pillbug_frozen_hex = g.pillbug_frozen_hex := by
  simp only [executeMove] at h
  repeat
    first
    | exact ⟨rfl, rfl, rfl, rfl, rfl, rfl, rfl, rfl, rfl⟩
    | cases h
    | split at h

theorem executeSpecial_ok_fields {g : Game} {m : MoveRequest} {g1 : Game}
    (h : executeSpecial g m = .ok g1) :
    g1.status = g.status ∧ g1.winner = g.winner ∧ g1.current_turn = g.current_turn ∧
    g1.turn_number = g.turn_number ∧ g1.white_pieces_hand = g.white_pieces_hand ∧
    g1.black_pieces_hand = g.black_pieces_hand ∧ g1.history = g.history ∧
    g1.last_moved_to = g.last_moved_to ∧ g1.pillbug_frozen_hex = some m.to_hex := by
  simp only [executeSpecial] at h
  repeat
    first
    | exact ⟨rfl, rfl, rfl, rfl, rfl, rfl, rfl, rfl, rfl⟩
    | cases h
    | split at h

theorem executePlace_ok_fields {g : Game} {m : MoveRequest} {nid : String} {g1 : Game}
    (h : executePlace g m nid = .ok g1) :
    g1.status = g.status ∧ g1.winner = g.winner ∧ g1.current_turn = g.current_turn ∧
    g1.turn_number = g.turn_number ∧ g1.history = g.history ∧
    g1.last_moved_to = g.last_moved_to ∧ g1.pillbug_frozen_hex = g.pillbug_frozen_hex := by
  simp only [executePlace] at h
  repeat
    first
    | exact ⟨by simp [setCurrentHand_status], by simp [setCurrentHand_winner],
        by simp [setCurrentHand_current_turn], by simp [setCurrentHand_turn_number],
        by simp [setCurrentHand_history], by simp [setCurrentHand_last_moved_to],
        by simp [setCurrentHand_pillbug_frozen_hex]⟩
    | cases h
    | split at h

theorem executeMove_err {g : Game} {m : MoveRequest} {g1 : Game} {msg : String}
    (h : executeMove g m = .err g1 msg) : g1 = g := by
  simp only [executeMove] at h
  repeat
    first
    | rfl
    | cases h
    | split at h

theorem executeSpecial_err {g : Game} {m : MoveRequest} {g1 : Game} {msg : String}
    (h : executeSpecial g m = .err g1 msg) : g1 = g := by
  simp only [executeSpecial] at h
  repeat
    first
    | rfl
    | cases h
    | split at h

theorem executePlace_err {g : Game} {m : MoveRequest} {nid : String} {g1 : Game} {msg : String}
    (h : executePlace g m nid = .err g1 msg) :
    g1 = g ∨ (m.piece_type ≠ none ∧
      handAt (currentHand g) (m.piece_type.getD PieceType.QUEEN) = none ∧
      g1 = setCurrentHand g (currentHand g ++ [(m.piece_type.getD PieceType.QUEEN, 0)])) := by
  simp only [executePlace] at h
  split at h
  · cases h
    exact Or.inl rfl
  rename_i pt hpt
  cases hh : handAt (currentHand g) pt with
  | some v =>
    rw [show handGetOrInsert (currentHand g) pt = (v, currentHand g) from by
      simp [handGetOrInsert, hh]] at h
    simp only [setCurrentHand_self] at h
    left
    repeat
      first
      | rfl
      | cases h
      | split at h
  | none =>
    rw [show handGetOrInsert (currentHand g) pt = (0, currentHand g ++ [(pt, 0)]) from by
      simp [handGetOrInsert, hh]] at h
    rw [if_pos (by norm_num : (0 : Int) ≤ 0)] at h
    cases h
    refine Or.inr ⟨by rw [hpt]; simp, ?_, ?_⟩
    · rw [hpt]
      exact hh
    · rw [hpt]
      rfl

theorem execDispatch_ok_status {g : Game} {m : MoveRequest} {nid : String} {g1 : Game}
    (h : execDispatch g m nid = .ok g1) : g1.status = g.status := by
  unfold execDispatch at h
  cases ha : m.action <;> rw [ha] at h
  · exact (executePlace_ok_fields h).1
  · exact (executeMove_ok_fields h).1
  · exact (executeSpecial_ok_fields h).1

/-- C3: after any committed action, if exactly one color's queen has all six
neighbor cells occupied the game becomes FINISHED with the other color as
winner; if both queens are fully surrounded it becomes FINISHED with no
winner (a draw); otherwise the status stays IN_PROGRESS. -/
theorem c3_win_detection {g : Game} {m : MoveRequest} {u : String} {g2 : Game}
    (h : processMove g m u = .ok g2) :
    (queenSurrounded g2.board PlayerColor.WHITE = true →
      queenSurrounded g2.board PlayerColor.BLACK = true →
      g2.status = GameStatus.FINISHED ∧ g2.winner = none) ∧
    (queenSurrounded g2.board PlayerColor.WHITE = true →
      queenSurrounded g2.board PlayerColor.BLACK = false →
      g2.status = GameStatus.FINISHED ∧ g2.winner = some PlayerColor.BLACK) ∧
    (queenSurrounded g2.board PlayerColor.WHITE = false →
      queenSurrounded g2.board PlayerColor.BLACK = true →
      g2.status = GameStatus.FINISHED ∧ g2.winner = some PlayerColor.WHITE) ∧
    (queenSurrounded g2.board PlayerColor.WHITE = false →
      queenSurrounded g2.board PlayerColor.BLACK = false →
      g2.status = GameStatus.IN_PROGRESS) := by
  obtain ⟨hstat, hval, g1, hexec, hpost⟩ := processMove_ok_inv h
  have hb : g2.board = g1.board := by
    rw [hpost, processMovePost_board]
  have hs2 : g2.status =
      (checkWinCondition { g1 with history := g1.history ++ [mkLog g m] }).status := by
    rw [hpost]
    rfl
  have hw2 : g2.winner =
      (checkWinCondition { g1 with history := g1.history ++ [mkLog g m] }).winner := by
    rw [hpost]
    rfl
  have hstat1 : g1.status = g.status := execDispatch_ok_status hexec
  refine ⟨?_, ?_, ?_, ?_⟩ <;> intro hw hbk <;> rw [hb] at hw hbk
  · rw [hs2, hw2]
    constructor <;> simp [checkWinCondition, hw, hbk]
  · rw [hs2, hw2]
    constructor <;> simp [checkWinCondition, hw, hbk]
  · rw [hs2, hw2]
    constructor <;> simp [checkWinCondition, hw, hbk]
  · rw [hs2]
    have : (checkWinCondition { g1 with history := g1.history ++ [mkLog g m] }).status =
        g1.status := by
      simp [checkWinCondition, hw, hbk]
    rw [this, hstat1]
    cases hgs : g.status
    · rfl
    · exact absurd hgs hstat

/-- Witness for C3 at a concrete input: after the opening queen placement no
queen is surrounded, and the status stays IN_PROGRESS. -/
theorem c3_win_detection_witness :
    ((applyMoves (createGame "c3" false)
      [({ action := ActionType.PLACE, piece_type := some PieceType.QUEEN, to_hex := (0, 0) },
        "p1")]).getD (createGame "c3" false)).status = GameStatus.IN_PROGRESS :=
  (c3_win_detection (g := createGame "c3" false)
      (m := { action := ActionType.PLACE, piece_type := some PieceType.QUEEN, to_hex := (0, 0) })
      (u := "p1") (by decide)).2.2.2 (by decide) (by decide)

/-- C6 (amended): whenever `process_move` rejects an action, the record is
unchanged except that a rejected placement of a piece type absent from the
mover's hand leaves a zero-count entry for that type default-inserted by the
C++ `hand[pt]` access; every other field (board, turn, status, winner,
history, both hands otherwise) is exactly as before the call. -/
theorem c6_rejection_leaves_record {g : Game} {m : MoveRequest} {u : String} {r : Game}
    {v : String} (h : processMove g m u = .err r v) :
    r = g ∨ (m.action = ActionType.PLACE ∧ m.piece_type ≠ none ∧
      handAt (currentHand g) (m.piece_type.getD PieceType.QUEEN) = none ∧
      r = setCurrentHand g (currentHand g ++ [(m.piece_type.getD PieceType.QUEEN, 0)])) := by
  simp only [processMove] at h
  split at h
  · cases h
    exact Or.inl rfl
  split at h
  · cases h
    exact Or.inl rfl
  split at h
  · rename_i g1 msg1 heq
    cases h
    unfold execDispatch at heq
    cases ha : m.action <;> rw [ha] at heq
    · rcases executePlace_err heq with h1 | ⟨h1, h2, h3⟩
      · exact Or.inl h1
      · exact Or.inr ⟨rfl, h1, h2, h3⟩
    · exact Or.inl (executeMove_err heq)
    · exact Or.inl (executeSpecial_err heq)
  · cases h

/-- C6 counterexample: the claim as stated ("the game record is left
completely unchanged: ... both hands ... equal to their values before the
call") fails.  Rejecting a LADYBUG placement in a standard-mode game inserts
a zero-count LADYBUG entry into the white hand before the throw. -/
theorem c6_counterexample :
    processMove (createGame "c6" false)
      { action := ActionType.PLACE, piece_type := some PieceType.LADYBUG, to_hex := (0, 0) }
      "n1" =
      .err (setCurrentHand (createGame "c6" false) (createInitialHand ++ [(.LADYBUG, 0)]))
        "No LADYBUG remaining in hand" ∧
    setCurrentHand (createGame "c6" false) (createInitialHand ++ [(.LADYBUG, 0)]) ≠
      createGame "c6" false := by
  constructor
  · decide
  · decide

/-- Witness for C6 at a concrete input: a move submitted to a finished game
is rejected with the record unchanged. -/
theorem c6_rejection_leaves_record_witness :
    finishedGame = finishedGame ∨
    (({ action := ActionType.MOVE, from_hex := some (0, 0), to_hex := ((1, 0) : Hex) }
        : MoveRequest).action = ActionType.PLACE ∧
      ({ action := ActionType.MOVE, from_hex := some (0, 0), to_hex := ((1, 0) : Hex) }
        : MoveRequest).piece_type ≠ none ∧
      handAt (currentHand finishedGame)
        (({ action := ActionType.MOVE, from_hex := some (0, 0), to_hex := ((1, 0) : Hex) }
          : MoveRequest).piece_type.getD PieceType.QUEEN) = none ∧
      finishedGame = setCurrentHand finishedGame (currentHand finishedGame ++
        [(({ action := ActionType.MOVE, from_hex := some (0, 0), to_hex := ((1, 0) : Hex) }
          : MoveRequest).piece_type.getD PieceType.QUEEN, 0)])) :=
  c6_rejection_leaves_record (g := finishedGame)
    (m := { action := ActionType.MOVE, from_hex := some (0, 0), to_hex := (1, 0) })
    (u := "n") (r := finishedGame) (v := "Game is finished") (by decide)

/-- C10: the legal-move query never fails at the public interface:
`get_valid_moves` returns an empty list when the game id is unknown or the
game is FINISHED, and `get_legal_actions` returns an empty list for a
FINISHED game. -/
theorem c10_legal_query_total :
    (∀ (games : List (String × Game)) (gid : String) (q r : ℤ),
      lookupGame games gid = none → getValidMoves games gid q r = []) ∧
    (∀ (games : List (String × Game)) (gid : String) (q r : ℤ) (g : Game),
      lookupGame games gid = some g → g.status = GameStatus.FINISHED →
      getValidMoves games gid q r = []) ∧
    (∀ g : Game, g.status = GameStatus.FINISHED → getLegalActions g = []) := by
  refine ⟨?_, ?_, ?_⟩
  · intro games gid q r h
    simp [getValidMoves, h]
  · intro games gid q r g h hs
    simp [getValidMoves, h, hs]
  · intro g hs
    simp [getLegalActions, hs]

/-- Witness for C10 at concrete inputs: an empty engine map, a finished game
looked up by id, and a finished game queried for legal actions. -/
theorem c10_legal_query_total_witness :
    getValidMoves [] "missing" 0 0 = [] ∧
    getValidMoves [("fin", finishedGame)] "fin" 1 2 = [] ∧
    getLegalActions finishedGame = [] :=
  ⟨c10_legal_query_total.1 [] "missing" 0 0 (by decide),
    c10_legal_query_total.2.1 [("fin", finishedGame)] "fin" 1 2 finishedGame (by decide)
      (by decide),
    c10_legal_query_total.2.2 finishedGame (by decide)⟩

/-- C4 (failing-input evaluation): with white's queen still in hand
(hand count 1), `process_move` rejects a white MOVE (as the claim says) but
ACCEPTS a white SPECIAL pillbug throw — `execute_special` never performs the
queen-in-hand check — even though the move-listing path
(`get_valid_moves_for_piece`) offers that pillbug no actions at all. -/
theorem c4_special_accepted_with_queen_in_hand :
    (applyMoves (createGame "c4" true) c4Moves).isSome = true ∧
    handAt (currentHand c4Game) PieceType.QUEEN = some 1 ∧
    processMove c4Game
      { action := ActionType.MOVE, from_hex := some (0, 0), to_hex := (0, 1) } "n4" =
      .err c4Game "Must place Queen Bee before moving pieces" ∧
    c4Special.action = ActionType.SPECIAL ∧
    (processMove c4Game c4Special "n3").isOk = true ∧
    getValidMovesForPiece c4Game (0, 0) (occupiedList c4Game.board) true = [] := by
  refine ⟨by decide, by decide, by decide, by decide, by decide, by decide⟩

/-- C5 (failing-input evaluation): the pillbug freeze is enforced only in the
move-listing and re-throw paths and is never cleared.  After white throws its
own queen on turn 5: (a) on white's very next turn — within the claimed
freeze window — `process_move` happily ACCEPTS a MOVE of the frozen queen
(`execute_move` never consults `pillbug_frozen_hex`); and (b) two full turns
after the throw — when the claim says the piece may move and be thrown again
— a re-throw is still REJECTED as frozen, and clearing the stale
`pillbug_frozen_hex` flag is the only obstacle (the same request is accepted
once the flag is cleared). -/
theorem c5_freeze_wrong_window :
    (applyMoves (createGame "c5" true) c5Moves).isSome = true ∧
    c5Game6.pillbug_frozen_hex = some (1, 0) ∧
    (processMove c5Game6
      { action := ActionType.MOVE, from_hex := some (1, 0), to_hex := (1, -1) } "wx").isOk =
      true ∧
    c5Game.pillbug_frozen_hex = some (1, 0) ∧
    c5Game.current_turn = PlayerColor.WHITE ∧
    processMove c5Game c5Rethrow "w5" = .err c5Game "That piece is frozen by pillbug" ∧
    (processMove { c5Game with pillbug_frozen_hex := none } c5Rethrow "w5").isOk = true := by
  refine ⟨by decide, by decide, by decide, by decide, by decide, by decide, by decide⟩

theorem xor_left_comm (a b c : Nat) : a ^^^ (b ^^^ c) = b ^^^ (a ^^^ c) := by
  rw [← Nat.xor_assoc, Nat.xor_comm a b, Nat.xor_assoc]

theorem foldr_xor_perm {s t : List Nat} (h : s.Perm t) (a : Nat) :
    s.foldr (fun x y => x ^^^ y) a = t.foldr (fun x y => x ^^^ y) a := by
  induction h with
  | nil => rfl
  | cons x _ ih => simp only [List.foldr_cons, ih]
  | swap x y l => simp only [List.foldr_cons]; rw [xor_left_comm]
  | trans _ _ ih1 ih2 => rw [ih1, ih2]

theorem pieceKeysXor_perm (K : ZobristKeys) (pos : Hex) {s t : List Piece} (h : s.Perm t) :
    pieceKeysXor K pos s = pieceKeysXor K pos t :=
  foldr_xor_perm (h.map _) 0

theorem pieceKeysXor_cons (K : ZobristKeys) (pos : Hex) (p : Piece) (rest : List Piece) :
    pieceKeysXor K pos (p :: rest) = K.pieceKey p.type p.color pos ^^^ pieceKeysXor K pos rest :=
  rfl

theorem stackHashAux_char (K : ZobristKeys) (pos : Hex) (s : List Piece) (i h : Nat) :
    stackHashAux K pos s i h = h ^^^ (pieceKeysXor K pos s ^^^ saltXor s.length i) := by
  induction s generalizing i h with
  | nil => simp [stackHashAux, pieceKeysXor, saltXor]
  | cons p rest ih =>
    simp only [stackHashAux]
    rw [ih, pieceKeysXor_cons, List.length_cons]
    simp only [saltXor]
    simp [Nat.xor_assoc, Nat.xor_comm, xor_left_comm]

/-- C9 (counterexample): two games identical in every field except that the
one occupied cell stacks the same two pieces in opposite vertical order — the
boards differ, yet `compute_zobrist_hash` gives both the same value: the
level salt `(i+1) * 0x9E3779B97F4A7C15` does not depend on WHICH piece sits
at level `i`, so reordering a stack XORs in exactly the same multiset of
words. -/
theorem c9_counterexample :
    c9GameA.board ≠ c9GameB.board ∧
    c9GameA.current_turn = c9GameB.current_turn ∧
    c9GameA.white_pieces_hand = c9GameB.white_pieces_hand ∧
    c9GameA.black_pieces_hand = c9GameB.black_pieces_hand ∧
    computeZobristHash c9Keys c9GameA = computeZobristHash c9Keys c9GameB := by
  refine ⟨by decide, by decide, by decide, by decide, by decide⟩

/-- C9 (amended): `compute_zobrist_hash` is deterministic, but the stack-level
salt does NOT distinguish vertical stack order: for EVERY key table, permuting
the pieces within any one cell's stack (all other fields unchanged) leaves the
hash unchanged, because the salt at level `i` is `(i+1) * 0x9E3779B97F4A7C15`
independently of the piece stored there. -/
theorem c9_stack_order_invisible (K : ZobristKeys) (g : Game) (pos : Hex)
    (s t : List Piece) (rest : Board) (hperm : s.Perm t) :
    computeZobristHash K { g with board := (pos, s) :: rest } =
      computeZobristHash K { g with board := (pos, t) :: rest } := by
  have hempty : s.isEmpty = t.isEmpty := by
    have hlen := hperm.length_eq
    cases s <;> cases t <;> simp_all
  have hstack : (if s.isEmpty then (0 : Nat) else stackHashAux K pos s 0 0) =
      (if t.isEmpty then (0 : Nat) else stackHashAux K pos t 0 0) := by
    rw [hempty, stackHashAux_char, stackHashAux_char,
      pieceKeysXor_perm K pos hperm, hperm.length_eq]
  simp only [computeZobristHash, List.foldl_cons]
  rw [hstack]

theorem c9_stack_order_invisible_witness :
    List.Perm [c9Piece1, c9Piece2] [c9Piece2, c9Piece1] ∧
    computeZobristHash c9Keys
        { createGame "c9" false with board := ((0, 0), [c9Piece1, c9Piece2]) :: [] } =
      computeZobristHash c9Keys
        { createGame "c9" false with board := ((0, 0), [c9Piece2, c9Piece1]) :: [] } :=
  ⟨by decide,
   c9_stack_order_invisible c9Keys (createGame "c9" false) (0, 0)
     [c9Piece1, c9Piece2] [c9Piece2, c9Piece1] [] (by decide)⟩

end Bugs
